import Mathlib

/-!
# Migration009 of the OpenBazaar repository, as a shallow embedding

The development follows `repo/migrations/Migration009.go`:

* the two derivation functions `paymentCoinForContract` and `coinTypeForContract`;
* the backfill pass `migration009UpdateTablesCoins`;
* the schema transactions of `Up` and `Down` together with the version ledger.

The SQL engine, the document decoder and the ledger file are collaborators of the
migration.  The engine is modelled by a small interpreter for exactly the statement
forms the migration issues, the decoder is a parameter, the ledger is a number.
-/

set_option autoImplicit false

namespace Migration009

/-! ## Faults -/

/-- Run-time panics of the Go program. They are not returned as an `error` value: they
unwind the caller. -/
inductive Panic where
  /-- Dereference of a nil pointer to a message. -/
  | nilDereference
  /-- Index expression on a slice that is too short. -/
  | indexOutOfRange
  deriving DecidableEq, Repr

/-- Errors reported by the SQL engine for the statement forms used by the migration. -/
inductive SqlError where
  | noSuchTable (table : String)
  | noSuchColumn (column : String)
  | duplicateColumn (column : String)
  | tableExists (table : String)
  | tableNamed (name : String)
  | indexNamed (name : String)
  | indexExists (index : String)
  | nameTaken (name : String)
  | arity (table : String) (columns values : Nat)
  /-- A failure of the driver itself (I/O, lock, ...) at the statement with this position. -/
  | driver (position : Nat)
  deriving DecidableEq, Repr

/-- Everything that can stop the migration: the `error` values it returns and the panics
that unwind it. -/
inductive Fault where
  /-- The value returned by `NewDB`. -/
  | openDB
  /-- The value returned by `tx.Exec` or `db.Query`. -/
  | sql (e : SqlError)
  /-- The value returned by `writeRepoVer`. -/
  | ledgerWrite
  /-- The value returned by `rows.Scan` when a NULL is scanned into a Go string. -/
  | scan
  /-- The value returned by `jsonpb.UnmarshalString` for the document of the row with this id. -/
  | decode (orderID : String)
  /-- A run-time panic. -/
  | panic (p : Panic)
  deriving DecidableEq, Repr

/-! ## Documents -/

/-- Modelled from the spec: the generated protobuf types of package `pb` are not among the
sources; the spec lists what a document exposes (listings with a coin-type field and
accepted-currency codes, an order/payment section with a coin code).  Each listing keeps
these two fields in its `Metadata` message, the path the source dereferences. -/
structure Listing_Metadata where
  AcceptedCurrencies : List String
  CoinType : String
  deriving DecidableEq, Repr

/-- Modelled from the spec: a listing. `Metadata` is a message-typed field, a pointer in
the generated code, absent (`none`) when the document does not carry it. -/
structure Listing where
  Metadata : Option Listing_Metadata
  deriving DecidableEq, Repr

/-- Modelled from the spec: the payment section of an order, with its declared coin code. -/
structure Order_Payment where
  Coin : String
  deriving DecidableEq, Repr

/-- Modelled from the spec: the order of the buyer; `Payment` is a message-typed field. -/
structure Order where
  Payment : Option Order_Payment
  deriving DecidableEq, Repr

/-- Modelled from the spec: the decoded document. `BuyerOrder` is a message-typed field;
`VendorListings` is a repeated field, whose elements are never absent. -/
structure RicardianContract where
  VendorListings : List Listing
  BuyerOrder : Option Order
  deriving DecidableEq, Repr

/-- The pair of derived values kept per row id (`type coinset struct`). -/
structure coinset where
  paymentCoin : String
  coinType : String
  deriving DecidableEq, Repr

/-- `paymentCoinForContract`: the declared coin of `contract.BuyerOrder.Payment` when it is
not empty, otherwise the first accepted currency of `contract.VendorListings[0].Metadata`
when that list is not empty, otherwise the (empty) declared coin.  The field path is
dereferenced and the slice is indexed without a check, as in the source. -/
def paymentCoinForContract (contract : RicardianContract) : Except Fault String :=
  match contract.BuyerOrder with
  | none => .error (.panic .nilDereference)
  | some order =>
    match order.Payment with
    | none => .error (.panic .nilDereference)
    | some payment =>
      if payment.Coin ≠ "" then .ok payment.Coin
      else
        match contract.VendorListings with
        | [] => .error (.panic .indexOutOfRange)
        | listing :: _ =>
          match listing.Metadata with
          | none => .error (.panic .nilDereference)
          | some metadata =>
            match metadata.AcceptedCurrencies with
            | [] => .ok payment.Coin
            | first :: _ => .ok first

/-- `coinTypeForContract`: the empty string, replaced by
`contract.VendorListings[0].Metadata.CoinType` when `len(contract.VendorListings) > 0`. -/
def coinTypeForContract (contract : RicardianContract) : Except Fault String :=
  match contract.VendorListings with
  | [] => .ok ""
  | listing :: _ =>
    match listing.Metadata with
    | none => .error (.panic .nilDereference)
    | some metadata => .ok metadata.CoinType

/-! ## The SQL engine

Only the statement forms issued by the migration are interpreted.  Identifiers are compared
as written (the migration spells each of them in one way only).  Key and not-null
declarations are carried in the column declaration and not re-checked: the only rows the
migration inserts are copied from a table that carries the same declarations.  The
automatic index of a primary key is internal to the engine and not listed. -/

/-- A stored value: NULL, or the text the driver hands to `Scan` for it. -/
abbrev Value := Option String

/-- A table row: the value held under each column name. -/
abbrev Row := String → Value

/-- Overwrites one column of a row. -/
def Row.set (r : Row) (column : String) (v : Value) : Row :=
  fun c => if c = column then v else r c

/-- A column definition: its name and the rest of its declaration, verbatim. -/
structure Column where
  name : String
  decl : String
  deriving DecidableEq, Repr

/-- A table: its column definitions in order, and its rows in scan order. -/
structure Table where
  cols : List Column
  rows : List Row

/-- The column names of a table, in order. -/
def Table.colNames (t : Table) : List String := t.cols.map Column.name

/-- An index: its name, the table it is attached to and the indexed columns. -/
structure Index where
  name : String
  table : String
  cols : List String
  deriving DecidableEq, Repr

/-- The database: its tables by name and its indexes. -/
structure DB where
  tables : String → Option Table
  indexes : List Index

/-- Binds one table name, leaving the others. -/
def DB.setTable (db : DB) (name : String) (t : Option Table) : String → Option Table :=
  fun n => if n = name then t else db.tables n

/-- Is there an index with this name? -/
def DB.hasIndex (db : DB) (name : String) : Bool := db.indexes.any (fun i => i.name == name)

/-- The document expression of the backfill query: one column, or the first non-NULL of
two columns (`COALESCE(a, b) AS contract`). -/
inductive DocExpr where
  | column (c : String)
  | coalesce (a b : String)
  deriving DecidableEq, Repr

/-- The columns a document expression reads. -/
def DocExpr.columns : DocExpr → List String
  | .column c => [c]
  | .coalesce a b => [a, b]

/-- The value of a document expression on a row. -/
def DocExpr.eval (e : DocExpr) (r : Row) : Value :=
  match e with
  | .column c => r c
  | .coalesce a b =>
    match r a with
    | some v => some v
    | none => r b

/-- The statement forms executed inside the transactions of the migration. -/
inductive Stmt where
  /-- `ALTER TABLE table ADD COLUMN col DEFAULT dflt;` -/
  | alterAddColumn (table : String) (col : Column) (dflt : Value)
  /-- `ALTER TABLE table RENAME TO newName;` -/
  | alterRename (table newName : String)
  /-- `create table name (cols);` -/
  | createTable (name : String) (cols : List Column)
  /-- `create index name on table (cols);` -/
  | createIndex (name table : String) (cols : List String)
  /-- `INSERT INTO target SELECT cols FROM source;` -/
  | insertSelect (target : String) (cols : List String) (source : String)
  /-- `DROP TABLE name;` -/
  | dropTable (name : String)
  /-- `UPDATE table SET coinType = ?, paymentCoin = ? WHERE idColumn = ?` with its arguments. -/
  | updateCoins (table idColumn coinType paymentCoin id : String)
  deriving DecidableEq, Repr

/-- The row written by `INSERT INTO ... SELECT cols`: the k-th selected value goes to the
k-th column of the target table. -/
def projectRow (targetCols cols : List String) (r : Row) : Row :=
  fun c =>
    match (targetCols.zip cols).lookup c with
    | some source => r source
    | none => none

/-- The row written by the backfill `UPDATE` when its `WHERE` clause selects the row. -/
def updateRow (idColumn coinType paymentCoin id : String) (r : Row) : Row :=
  if r idColumn = some id then
    (r.set "coinType" (some coinType)).set "paymentCoin" (some paymentCoin)
  else r

/-- The first column named by the backfill `UPDATE` that the table lacks, if any. -/
def updateColumnsMissing (t : Table) (idColumn : String) : Option String :=
  ["coinType", "paymentCoin", idColumn].find? (fun c => decide (c ∉ t.colNames))

/-- Executes one statement. -/
def exec (db : DB) : Stmt → Except SqlError DB
  | .alterAddColumn table col dflt =>
    match db.tables table with
    | none => .error (.noSuchTable table)
    | some t =>
      if col.name ∈ t.colNames then .error (.duplicateColumn col.name)
      else .ok { db with
        tables := db.setTable table
          (some { cols := t.cols ++ [col], rows := t.rows.map (fun r => r.set col.name dflt) }) }
  | .alterRename table newName =>
    match db.tables table with
    | none => .error (.noSuchTable table)
    | some t =>
      if (db.tables newName).isSome || db.hasIndex newName then .error (.nameTaken newName)
      else .ok {
        tables := fun n => if n = newName then some t else if n = table then none else db.tables n
        indexes := db.indexes.map (fun i => if i.table = table then { i with table := newName } else i) }
  | .createTable name cols =>
    if (db.tables name).isSome then .error (.tableExists name)
    else if db.hasIndex name then .error (.indexNamed name)
    else .ok { db with tables := db.setTable name (some { cols := cols, rows := [] }) }
  | .createIndex name table cols =>
    match db.tables table with
    | none => .error (.noSuchTable table)
    | some t =>
      if (db.tables name).isSome then .error (.tableNamed name)
      else if db.hasIndex name then .error (.indexExists name)
      else
        match cols.find? (fun c => decide (c ∉ t.colNames)) with
        | some c => .error (.noSuchColumn c)
        | none => .ok { db with indexes := db.indexes ++ [{ name := name, table := table, cols := cols }] }
  | .insertSelect target cols source =>
    match db.tables target with
    | none => .error (.noSuchTable target)
    | some t =>
      match db.tables source with
      | none => .error (.noSuchTable source)
      | some s =>
        match cols.find? (fun c => decide (c ∉ s.colNames)) with
        | some c => .error (.noSuchColumn c)
        | none =>
          if t.cols.length ≠ cols.length then .error (.arity target t.cols.length cols.length)
          else .ok { db with
            tables := db.setTable target
              (some { t with rows := t.rows ++ s.rows.map (projectRow t.colNames cols) }) }
  | .dropTable name =>
    match db.tables name with
    | none => .error (.noSuchTable name)
    | some _ => .ok {
        tables := db.setTable name none
        indexes := db.indexes.filter (fun i => i.table != name) }
  | .updateCoins table idColumn coinType paymentCoin id =>
    match db.tables table with
    | none => .error (.noSuchTable table)
    | some t =>
      match updateColumnsMissing t idColumn with
      | some c => .error (.noSuchColumn c)
      | none => .ok { db with
          tables := db.setTable table
            (some { t with rows := t.rows.map (updateRow idColumn coinType paymentCoin id) }) }

/-- The first column named by the backfill query that the table lacks, if any. -/
def queryColumnsMissing (t : Table) (idColumn : String) (contractColumn : DocExpr) :
    Option String :=
  (idColumn :: contractColumn.columns).find? (fun c => decide (c ∉ t.colNames))

/-- The result set of the backfill query on a table: one pair per row, in scan order. -/
def resultSet (t : Table) (idColumn : String) (contractColumn : DocExpr) : List (Value × Value) :=
  t.rows.map (fun r => (r idColumn, contractColumn.eval r))

/-- The backfill query `SELECT idColumn, contractColumn FROM table;`. -/
def query (db : DB) (table idColumn : String) (contractColumn : DocExpr) :
    Except SqlError (List (Value × Value)) :=
  match db.tables table with
  | none => .error (.noSuchTable table)
  | some t =>
    match queryColumnsMissing t idColumn contractColumn with
    | some c => .error (.noSuchColumn c)
    | none => .ok (resultSet t idColumn contractColumn)

/-- The statement loop of a transaction handler (`for _, stmt := range ... { tx.Exec(stmt) }`):
statements run in order and the first error is returned, later statements are not run.
`fault k` tells whether the driver fails on the statement at position `k`. -/
def execAll (fault : Nat → Bool) : Nat → DB → List Stmt → Except Fault DB
  | _, db, [] => .ok db
  | k, db, stmt :: rest =>
    if fault k then .error (.sql (.driver k))
    else
      match exec db stmt with
      | .error e => .error (.sql e)
      | .ok db1 => execAll fault (k + 1) db1 rest

/-- A driver that never fails by itself. -/
def noFault : Nat → Bool := fun _ => false

/-- Modelled from the spec: `withTransaction` is not among the sources. The Transactional
Executor begins a transaction, runs the handler, aborts on the first failure and returns
that error (no change is visible), and commits on success. -/
def withTransaction (db : DB) (handler : DB → Except Fault DB) : Option Fault × DB :=
  match handler db with
  | .ok db1 => (none, db1)
  | .error e => (some e, db)

/-! ## The schema statements of the migration -/

/-- The columns of `Migration009CreateCasesTable`. -/
def Migration009CreateCasesTable : List Column :=
  [⟨"caseID", "text primary key not null"⟩, ⟨"buyerContract", "blob"⟩,
   ⟨"vendorContract", "blob"⟩, ⟨"buyerValidationErrors", "blob"⟩,
   ⟨"vendorValidationErrors", "blob"⟩, ⟨"buyerPayoutAddress", "text"⟩,
   ⟨"vendorPayoutAddress", "text"⟩, ⟨"buyerOutpoints", "blob"⟩, ⟨"vendorOutpoints", "blob"⟩,
   ⟨"state", "integer"⟩, ⟨"read", "integer"⟩, ⟨"timestamp", "integer"⟩,
   ⟨"buyerOpened", "integer"⟩, ⟨"claim", "text"⟩, ⟨"disputeResolution", "blob"⟩,
   ⟨"lastDisputeExpiryNotifiedAt", "integer not null default 0"⟩]

/-- The columns of `Migration009CreateSalesTable`. -/
def Migration009CreateSalesTable : List Column :=
  [⟨"orderID", "text primary key not null"⟩, ⟨"contract", "blob"⟩, ⟨"state", "integer"⟩,
   ⟨"read", "integer"⟩, ⟨"timestamp", "integer"⟩, ⟨"total", "integer"⟩,
   ⟨"thumbnail", "text"⟩, ⟨"buyerID", "text"⟩, ⟨"buyerHandle", "text"⟩, ⟨"title", "text"⟩,
   ⟨"shippingName", "text"⟩, ⟨"shippingAddress", "text"⟩, ⟨"paymentAddr", "text"⟩,
   ⟨"funded", "integer"⟩, ⟨"transactions", "blob"⟩, ⟨"needsSync", "integer"⟩,
   ⟨"lastDisputeTimeoutNotifiedAt", "integer not null default 0"⟩]

/-- The index of `Migration009CreateSalesIndex`: `index_sales on sales (paymentAddr, timestamp)`. -/
def Migration009CreateSalesIndex : Index :=
  { name := "index_sales", table := "sales", cols := ["paymentAddr", "timestamp"] }

/-- The columns of `Migration009CreatePurchasesTable`. -/
def Migration009CreatePurchasesTable : List Column :=
  [⟨"orderID", "text primary key not null"⟩, ⟨"contract", "blob"⟩, ⟨"state", "integer"⟩,
   ⟨"read", "integer"⟩, ⟨"timestamp", "integer"⟩, ⟨"total", "integer"⟩,
   ⟨"thumbnail", "text"⟩, ⟨"vendorID", "text"⟩, ⟨"vendorHandle", "text"⟩, ⟨"title", "text"⟩,
   ⟨"shippingName", "text"⟩, ⟨"shippingAddress", "text"⟩, ⟨"paymentAddr", "text"⟩,
   ⟨"funded", "integer"⟩, ⟨"transactions", "blob"⟩,
   ⟨"lastDisputeTimeoutNotifiedAt", "integer not null default 0"⟩,
   ⟨"lastDisputeExpiryNotifiedAt", "integer not null default 0"⟩,
   ⟨"disputedAt", "integer not null default 0"⟩]

/-- The statements of the schema transaction of `Up`, in order. -/
def upStatements : List Stmt :=
  [.alterAddColumn "cases" ⟨"coinType", "text DEFAULT ''"⟩ (some ""),
   .alterAddColumn "sales" ⟨"coinType", "text DEFAULT ''"⟩ (some ""),
   .alterAddColumn "purchases" ⟨"coinType", "text DEFAULT ''"⟩ (some ""),
   .alterAddColumn "cases" ⟨"paymentCoin", "text DEFAULT ''"⟩ (some ""),
   .alterAddColumn "sales" ⟨"paymentCoin", "text DEFAULT ''"⟩ (some ""),
   .alterAddColumn "purchases" ⟨"paymentCoin", "text DEFAULT ''"⟩ (some "")]

/-- The statements of the schema transaction of `Down`, in order. -/
def downStatements : List Stmt :=
  [.alterRename "cases" "temp_cases",
   .createTable "cases" Migration009CreateCasesTable,
   .insertSelect "cases"
     ["caseID", "buyerContract", "vendorContract", "buyerValidationErrors",
      "vendorValidationErrors", "buyerPayoutAddress", "vendorPayoutAddress", "buyerOutpoints",
      "vendorOutpoints", "state", "read", "timestamp", "buyerOpened", "claim",
      "disputeResolution", "lastDisputeExpiryNotifiedAt"] "temp_cases",
   .dropTable "temp_cases",
   .alterRename "sales" "temp_sales",
   .createTable "sales" Migration009CreateSalesTable,
   .createIndex Migration009CreateSalesIndex.name Migration009CreateSalesIndex.table
     Migration009CreateSalesIndex.cols,
   .insertSelect "sales"
     ["orderID", "contract", "state", "read", "timestamp", "total", "thumbnail", "buyerID",
      "buyerHandle", "title", "shippingName", "shippingAddress", "paymentAddr", "funded",
      "transactions", "needsSync", "lastDisputeTimeoutNotifiedAt"] "temp_sales",
   .dropTable "temp_sales",
   .alterRename "purchases" "temp_purchases",
   .createTable "purchases" Migration009CreatePurchasesTable,
   .insertSelect "purchases"
     ["orderID", "contract", "state", "read", "timestamp", "total", "thumbnail", "vendorID",
      "vendorHandle", "title", "shippingName", "shippingAddress", "paymentAddr", "funded",
      "transactions", "lastDisputeTimeoutNotifiedAt", "lastDisputeExpiryNotifiedAt",
      "disputedAt"] "temp_purchases",
   .dropTable "temp_purchases"]

/-! ## The backfill pass -/

/-- The map `coinsToSet` from row id to derived pair: a list of bindings with distinct keys. -/
abbrev CoinMap := List (String × coinset)

/-- The assignment `coinsToSet[orderID] = coins`: an earlier binding of the key is replaced. -/
def CoinMap.assign (m : CoinMap) (orderID : String) (coins : coinset) : CoinMap :=
  (orderID, coins) :: m.filter (fun e => e.1 != orderID)

/-- The call `rows.Scan(&orderID, &marshaledContract)` on one row of the result set: both
destinations are Go strings, so a NULL in either column is an error. -/
def scanRow : Value × Value → Except Fault (String × String)
  | (some orderID, some marshaledContract) => .ok (orderID, marshaledContract)
  | _ => .error .scan

/-- The read loop of the backfill (`for rows.Next() { ... }`) over the remaining rows of the
result set, with the bindings collected so far.  A failed scan returns its error, an empty
document is skipped, a document that does not decode returns the decode error, a decoded
document is bound to its derived pair (coin type first, as the composite literal
evaluates). -/
def readRows (decode : String → Option RicardianContract) :
    List (Value × Value) → CoinMap → Except Fault CoinMap
  | [], coinsToSet => .ok coinsToSet
  | row :: rest, coinsToSet =>
    match scanRow row with
    | .error e => .error e
    | .ok (orderID, marshaledContract) =>
      if marshaledContract = "" then readRows decode rest coinsToSet
      else
        match decode marshaledContract with
        | none => .error (.decode orderID)
        | some contract =>
          match coinTypeForContract contract with
          | .error e => .error e
          | .ok coinType =>
            match paymentCoinForContract contract with
            | .error e => .error e
            | .ok paymentCoin =>
              readRows decode rest
                (coinsToSet.assign orderID { paymentCoin := paymentCoin, coinType := coinType })

/-- The `UPDATE` statements of the write phase, one per binding. -/
def updateStatements (table idColumn : String) (coinsToSet : CoinMap) : List Stmt :=
  coinsToSet.map (fun e => .updateCoins table idColumn e.2.coinType e.2.paymentCoin e.1)

/-- `migration009UpdateTablesCoins`: query every row of `table`, collect the derived pair
of every row with a non-empty document, then write all pairs in one transaction.  The
result is the returned error (or the panic that unwinds the call), with the database as
the call leaves it.  The driver is taken not to fail by itself during the pass: its
statements fail for reasons of schema only. -/
def migration009UpdateTablesCoins (decode : String → Option RicardianContract) (db : DB)
    (table idColumn : String) (contractColumn : DocExpr) : Option Fault × DB :=
  match query db table idColumn contractColumn with
  | .error e => (some (.sql e), db)
  | .ok rows =>
    match readRows decode rows [] with
    | .error e => (some e, db)
    | .ok coinsToSet =>
      withTransaction db
        (fun tx => execAll noFault 0 tx (updateStatements table idColumn coinsToSet))

/-! ## The migration step -/

/-- The persistent state the migration works on: the database and the version ledger
(the number kept in the `repover` file). -/
structure World where
  db : DB
  repover : Nat

/-- The collaborators of a run: the document decoder (`jsonpb.UnmarshalString` into a
`pb.RicardianContract`) and the failures that may strike from outside. -/
structure Env where
  decode : String → Option RicardianContract
  /-- `NewDB` fails to open the store. -/
  openFault : Bool
  /-- The driver fails on the statement at this position of the schema transaction. -/
  ddlFault : Nat → Bool
  /-- The ledger write fails. -/
  ledgerFault : Bool

/-- Modelled from the spec: `writeRepoVer` is not among the sources. The Version Ledger
write replaces the record by the given version; when the record cannot be written the
error is returned and the ledger still holds the old version. -/
def writeRepoVer (env : Env) (w : World) (version : Nat) : Option Fault × World :=
  if env.ledgerFault then (some .ledgerWrite, w) else (none, { w with repover := version })

/-- The three backfill calls of `Up`, in order: table, id column, document expression. -/
def backfillTargets : List (String × String × DocExpr) :=
  [("cases", "caseID", .coalesce "buyerContract" "vendorContract"),
   ("sales", "orderID", .column "contract"),
   ("purchases", "orderID", .column "contract")]

/-- Modelled from the spec: `NewDB` is not among the sources. The Store Handle factory
opens the database of the repository and returns the connection, or an error. -/
def NewDB (env : Env) (w : World) : Except Fault DB :=
  if env.openFault then .error .openDB else .ok w.db

/-- `Migration009.Up`: open the store, add the columns in one transaction, write version
10 to the ledger, then backfill cases, sales and purchases; the first fault ends the run.
The result is the returned error (or the panic that unwinds the call) and the state the
call leaves. -/
def Up (env : Env) (w : World) : Option Fault × World :=
  match NewDB env w with
  | .error err => (some err, w)
  | .ok db =>
    match withTransaction db (fun tx => execAll env.ddlFault 0 tx upStatements) with
    | (some err, db0) => (some err, { w with db := db0 })
    | (none, db0) =>
      match writeRepoVer env { w with db := db0 } 10 with
      | (some err, w1) => (some err, w1)
      | (none, w1) =>
        match migration009UpdateTablesCoins env.decode w1.db "cases" "caseID"
            (.coalesce "buyerContract" "vendorContract") with
        | (some err, db1) => (some err, { w1 with db := db1 })
        | (none, db1) =>
          match migration009UpdateTablesCoins env.decode db1 "sales" "orderID"
              (.column "contract") with
          | (some err, db2) => (some err, { w1 with db := db2 })
          | (none, db2) =>
            match migration009UpdateTablesCoins env.decode db2 "purchases" "orderID"
                (.column "contract") with
            | (some err, db3) => (some err, { w1 with db := db3 })
            | (none, db3) => (none, { w1 with db := db3 })

/-- `Migration009.Down`: open the store, rebuild the three tables in their former shape
in one transaction, then write version 9 to the ledger. -/
def Down (env : Env) (w : World) : Option Fault × World :=
  match NewDB env w with
  | .error err => (some err, w)
  | .ok db =>
    match withTransaction db (fun tx => execAll env.ddlFault 0 tx downStatements) with
    | (some err, db0) => (some err, { w with db := db0 })
    | (none, db0) => writeRepoVer env { w with db := db0 } 9

/-! ## Derived notions used by the statements below -/

/-- The effect of the whole write phase on one row: the `UPDATE` of every binding, in turn. -/
def applyCoins (idColumn : String) (m : CoinMap) (r : Row) : Row :=
  m.foldl (fun row e => updateRow idColumn e.2.coinType e.2.paymentCoin e.1 row) r

/-- Does table `n` exist with a column named `c`? -/
def tableHasCol (db : DB) (n c : String) : Bool :=
  match db.tables n with
  | some t => decide (c ∈ t.colNames)
  | none => false

/-- The three tables the migration changes. -/
def coinTables : List String := ["cases", "sales", "purchases"]

/-- The version-10 shape: each of the three tables has both derived columns. -/
def hasCoinColumns (db : DB) : Bool :=
  coinTables.all (fun n => tableHasCol db n "coinType" && tableHasCol db n "paymentCoin")

/-- The version-9 shape: none of the three tables has a derived column. -/
def lacksCoinColumns (db : DB) : Bool :=
  coinTables.all (fun n => !tableHasCol db n "coinType" && !tableHasCol db n "paymentCoin")

/-- Ledger/schema coupling: the ledger names no version whose shape the database lacks. -/
def Coupled (w : World) : Prop :=
  (w.repover = 10 → hasCoinColumns w.db = true) ∧ (w.repover = 9 → lacksCoinColumns w.db = true)

instance (w : World) : Decidable (Coupled w) := by
  unfold Coupled; exact inferInstance

/-- The declaration `text primary key not null` of the id column: no row has a NULL id and
no two rows share an id. -/
def PrimaryKey (t : Table) (idColumn : String) : Prop :=
  (∀ r ∈ t.rows, r idColumn ≠ none) ∧ (t.rows.map (fun r => r idColumn)).Nodup

/-- The database with the rows of `table` whose document is the empty text removed. -/
def withoutEmptyDocuments (db : DB) (table : String) (contractColumn : DocExpr) : DB :=
  { db with
    tables := fun n =>
      if n = table then
        (db.tables n).map
          (fun t => { t with rows := t.rows.filter (fun r => decide (contractColumn.eval r ≠ some "")) })
      else db.tables n }

/-- A row of the result set that the read loop passes without a fault: it scans, and its
document is empty or decodes to a contract on which both derivations return. -/
def passes (decode : String → Option RicardianContract) (row : Value × Value) : Bool :=
  match scanRow row with
  | .error _ => false
  | .ok (_, doc) =>
    if doc = "" then true
    else
      match decode doc with
      | none => false
      | some contract =>
        match coinTypeForContract contract, paymentCoinForContract contract with
        | .ok _, .ok _ => true
        | _, _ => false

/-- The effect of a successful statement on the question "does table `n` have column `c`". -/
def Stmt.colEffect (s : Stmt) (has : String → String → Bool) : String → String → Bool :=
  fun n c =>
    match s with
    | .alterAddColumn table col _ => has n c || (decide (n = table) && decide (c = col.name))
    | .alterRename table newName =>
      if n = newName then has table c else if n = table then false else has n c
    | .createTable name cols => if n = name then decide (c ∈ cols.map Column.name) else has n c
    | .createIndex _ _ _ => has n c
    | .insertSelect _ _ _ => has n c
    | .dropTable name => if n = name then false else has n c
    | .updateCoins _ _ _ _ _ => has n c

/-- Is there an index with this name attached to this table? -/
def indexOn (db : DB) (name table : String) : Bool :=
  db.indexes.any (fun i => i.name == name && i.table == table)

/-- The effect of a successful statement on the list of indexes. -/
def Stmt.indexEffect (s : Stmt) (indexes : List Index) : List Index :=
  match s with
  | .alterRename table newName =>
    indexes.map (fun i => if i.table = table then { i with table := newName } else i)
  | .createIndex name table cols => indexes ++ [{ name := name, table := table, cols := cols }]
  | .dropTable name => indexes.filter (fun i => i.table != name)
  | _ => indexes

/-! ## Concrete inputs -/

/-- The document of the test: first listing of coin type TETH accepting TBTC, an order
whose payment section declares no coin. -/
def testContract : RicardianContract :=
  { VendorListings := [{ Metadata := some { AcceptedCurrencies := ["TBTC"], CoinType := "TETH" } }]
    BuyerOrder := some { Payment := some { Coin := "" } } }

/-- A decoder that knows one well-formed text, `"contract"`, and rejects every other text. -/
def testDecode : String → Option RicardianContract :=
  fun s => if s = "contract" then some testContract else none

/-- A row holding id `'1'` and the given document, every other column NULL. -/
def testRow (idColumn docColumn : String) (doc : Value) : Row :=
  fun c => if c = idColumn then some "1" else if c = docColumn then doc else none

/-- The version-9 database of the test, one row per table sharing the same document; with
or without the index `index_sales` of the sales table. -/
def testDB (withIndex : Bool) : DB :=
  { tables := fun n =>
      if n = "cases" then
        some ⟨Migration009CreateCasesTable, [testRow "caseID" "buyerContract" (some "contract")]⟩
      else if n = "sales" then
        some ⟨Migration009CreateSalesTable, [testRow "orderID" "contract" (some "contract")]⟩
      else if n = "purchases" then
        some ⟨Migration009CreatePurchasesTable, [testRow "orderID" "contract" (some "contract")]⟩
      else none
    indexes := if withIndex then [Migration009CreateSalesIndex] else [] }

/-- A run in which nothing fails from outside. -/
def testEnv : Env :=
  { decode := testDecode, openFault := false, ddlFault := noFault, ledgerFault := false }

/-- A run in which only the ledger write fails. -/
def ledgerFaultEnv : Env := { testEnv with ledgerFault := true }

/-- A decoded document with an order/payment section that declares no coin, and no listing. -/
def contractWithoutListings : RicardianContract :=
  { VendorListings := [], BuyerOrder := some { Payment := some { Coin := "" } } }

/-- A decoded document whose only listing carries no metadata section. -/
def contractWithBareListing : RicardianContract :=
  { VendorListings := [{ Metadata := none }], BuyerOrder := some { Payment := some { Coin := "TBTC" } } }

/-- The sales table in its version-10 shape, holding the row of the test. -/
def salesTable10 : Table :=
  { cols := Migration009CreateSalesTable ++
      [⟨"coinType", "text DEFAULT ''"⟩, ⟨"paymentCoin", "text DEFAULT ''"⟩]
    rows := [((testRow "orderID" "contract" (some "contract")).set "coinType" (some "")).set
      "paymentCoin" (some "")] }

/-- A database holding only `salesTable10`. -/
def salesDB10 : DB :=
  { tables := fun n => if n = "sales" then some salesTable10 else none, indexes := [] }

/-- The fault of a backfill pass over a table, read off the table: the query fails on a
missing column, the read loop fails on its first bad row, the write phase (when there is
something to write) fails on a missing column. -/
def passFault (decode : String → Option RicardianContract) (t : Table) (idColumn : String)
    (contractColumn : DocExpr) : Option Fault :=
  match queryColumnsMissing t idColumn contractColumn with
  | some c => some (.sql (.noSuchColumn c))
  | none =>
    match readRows decode (resultSet t idColumn contractColumn) [] with
    | .error e => some e
    | .ok [] => none
    | .ok (_ :: _) => (updateColumnsMissing t idColumn).map (fun c => .sql (.noSuchColumn c))

/-- The sales table in version-10 shape with a NULL document read before a malformed one. -/
def salesNullThenMalformed : DB :=
  { tables := fun n =>
      if n = "sales" then
        some { salesTable10 with
          rows := [fun c => if c = "orderID" then some "1" else none,
                   fun c => if c = "orderID" then some "2" else if c = "contract" then some "malformed" else none] }
      else none
    indexes := [] }

/-- The sales table in version-10 shape with the row of the test and a row whose document
is the empty text. -/
def salesWithEmptyDocument : DB :=
  { tables := fun n =>
      if n = "sales" then
        some { salesTable10 with
          rows := [testRow "orderID" "contract" (some "contract"),
                   fun c => if c = "orderID" then some "2" else if c = "contract" then some "" else none] }
      else none
    indexes := [] }

/-- The sales table in version-10 shape with the row of the test read before a row whose
document is malformed. -/
def salesGoodThenMalformed : DB :=
  { tables := fun n =>
      if n = "sales" then
        some { salesTable10 with
          rows := [testRow "orderID" "contract" (some "contract"),
                   fun c => if c = "orderID" then some "2" else if c = "contract" then some "malformed" else none] }
      else none
    indexes := [] }

/-- The version-9 database of the test with the sales document replaced by a malformed one. -/
def testDBMalformedSales : DB :=
  { tables := fun n =>
      if n = "sales" then
        some ⟨Migration009CreateSalesTable, [testRow "orderID" "contract" (some "malformed")]⟩
      else (testDB false).tables n
    indexes := [] }

/-- The database a schema transaction leaves when it commits (the database as it was when
it does not). -/
def committed (db : DB) (stmts : List Stmt) : DB :=
  match execAll noFault 0 db stmts with
  | .ok db1 => db1
  | .error _ => db

/-- A decoder that reads the text `"contract"` as the contract whose only listing carries
no metadata section, and rejects every other text. -/
def bareDecode : String → Option RicardianContract :=
  fun s => if s = "contract" then some contractWithBareListing else none

/-! ## Lemmas on rows and bindings -/

theorem updateRow_other (idColumn coinType paymentCoin id c : String) (r : Row)
    (h1 : c ≠ "coinType") (h2 : c ≠ "paymentCoin") :
    updateRow idColumn coinType paymentCoin id r c = r c := by
  unfold updateRow
  split
  · simp [Row.set, h1, h2]
  · rfl

theorem applyCoins_nil (idColumn : String) (r : Row) : applyCoins idColumn [] r = r := rfl

theorem applyCoins_cons (idColumn : String) (e : String × coinset) (m : CoinMap) (r : Row) :
    applyCoins idColumn (e :: m) r
      = applyCoins idColumn m (updateRow idColumn e.2.coinType e.2.paymentCoin e.1 r) := rfl

theorem applyCoins_other (idColumn c : String) (m : CoinMap) (r : Row)
    (h1 : c ≠ "coinType") (h2 : c ≠ "paymentCoin") :
    applyCoins idColumn m r c = r c := by
  induction m generalizing r with
  | nil => rfl
  | cons e m ih => rw [applyCoins_cons, ih, updateRow_other _ _ _ _ _ _ h1 h2]

theorem applyCoins_of_not_mem (idColumn : String) (m : CoinMap) (r : Row)
    (h : ∀ e ∈ m, r idColumn ≠ some e.1) : applyCoins idColumn m r = r := by
  induction m generalizing r with
  | nil => rfl
  | cons e m ih =>
    have he : r idColumn ≠ some e.1 := h e (List.mem_cons_self _ _)
    have hr : updateRow idColumn e.2.coinType e.2.paymentCoin e.1 r = r := by
      unfold updateRow; rw [if_neg he]
    rw [applyCoins_cons, hr]
    exact ih r (fun e1 h1 => h e1 (List.mem_cons_of_mem _ h1))

theorem applyCoins_of_mem (idColumn id : String) (cs : coinset) (m : CoinMap) (r : Row)
    (h1 : idColumn ≠ "coinType") (h2 : idColumn ≠ "paymentCoin")
    (hnd : (m.map Prod.fst).Nodup) (hmem : (id, cs) ∈ m) (hr : r idColumn = some id) :
    applyCoins idColumn m r
      = (r.set "coinType" (some cs.coinType)).set "paymentCoin" (some cs.paymentCoin) := by
  induction m generalizing r with
  | nil => simp at hmem
  | cons e m ih =>
    rw [List.map_cons, List.nodup_cons] at hnd
    rw [applyCoins_cons]
    rcases List.mem_cons.1 hmem with heq | hin
    · subst heq
      have hu : updateRow idColumn cs.coinType cs.paymentCoin id r
          = (r.set "coinType" (some cs.coinType)).set "paymentCoin" (some cs.paymentCoin) := by
        unfold updateRow; rw [if_pos hr]
      rw [hu]
      apply applyCoins_of_not_mem
      intro e1 he1 hcontra
      have hid : ((r.set "coinType" (some cs.coinType)).set "paymentCoin" (some cs.paymentCoin))
          idColumn = some id := by
        simp [Row.set, h1, h2, hr]
      rw [hid] at hcontra
      have hkey : e1.1 = id := by injection hcontra with h; exact h.symm
      have hm : e1.1 ∈ m.map Prod.fst := List.mem_map_of_mem Prod.fst he1
      rw [hkey] at hm
      exact hnd.1 hm
    · have hne : e.1 ≠ id := by
        intro h
        exact hnd.1 (h ▸ List.mem_map_of_mem Prod.fst hin)
      have hu : updateRow idColumn e.2.coinType e.2.paymentCoin e.1 r = r := by
        unfold updateRow
        rw [if_neg]
        rw [hr]; intro h; injection h with h; exact hne h.symm
      rw [hu]
      exact ih r hnd.2 hin hr

/-! ## Lemmas on the read loop -/

theorem scanRow_ok (row : Value × Value) (id doc : String)
    (h : scanRow row = .ok (id, doc)) : row = (some id, some doc) := by
  obtain ⟨a, b⟩ := row
  cases a <;> cases b <;> simp [scanRow] at h
  obtain ⟨h1, h2⟩ := h
  subst h1; subst h2; rfl

theorem readRows_cons_ok (decode : String → Option RicardianContract)
    (row : Value × Value) (rest : List (Value × Value)) (m0 m : CoinMap)
    (h : readRows decode (row :: rest) m0 = .ok m) :
    ∃ id doc, row = (some id, some doc) ∧
      ((doc = "" ∧ readRows decode rest m0 = .ok m) ∨
       (doc ≠ "" ∧ ∃ c ct pc, decode doc = some c ∧ coinTypeForContract c = .ok ct ∧
          paymentCoinForContract c = .ok pc ∧
          readRows decode rest (m0.assign id { paymentCoin := pc, coinType := ct }) = .ok m)) := by
  simp only [readRows] at h
  split at h
  · simp at h
  · rename_i id doc hscan
    refine ⟨id, doc, scanRow_ok _ _ _ hscan, ?_⟩
    split at h
    · rename_i hdoc
      exact Or.inl ⟨hdoc, h⟩
    · rename_i hdoc
      refine Or.inr ⟨hdoc, ?_⟩
      split at h
      · simp at h
      · rename_i c hc
        split at h
        · simp at h
        · rename_i ct hct
          split at h
          · simp at h
          · rename_i pc hpc
            exact ⟨c, ct, pc, hc, hct, hpc, h⟩

theorem assign_keys_nodup (m : CoinMap) (id : String) (cs : coinset)
    (h : (m.map Prod.fst).Nodup) : ((m.assign id cs).map Prod.fst).Nodup := by
  unfold CoinMap.assign
  rw [List.map_cons, List.nodup_cons]
  constructor
  · intro hmem
    obtain ⟨e, he, hid⟩ := List.mem_map.1 hmem
    have hf := (List.mem_filter.1 he).2
    simp at hf
    exact hf hid
  · exact h.sublist ((List.filter_sublist m).map Prod.fst)

theorem assign_mem (m : CoinMap) (id : String) (cs : coinset) (e : String × coinset)
    (h : e ∈ m.assign id cs) : e = (id, cs) ∨ e ∈ m := by
  unfold CoinMap.assign at h
  rcases List.mem_cons.1 h with h | h
  · exact Or.inl h
  · exact Or.inr (List.mem_filter.1 h).1

theorem assign_keys_mono (m : CoinMap) (id k : String) (cs : coinset)
    (h : k ∈ m.map Prod.fst) : k ∈ (m.assign id cs).map Prod.fst := by
  unfold CoinMap.assign
  rw [List.map_cons, List.mem_cons]
  by_cases hk : k = id
  · exact Or.inl hk
  · right
    obtain ⟨e, he, hek⟩ := List.mem_map.1 h
    refine List.mem_map.2 ⟨e, List.mem_filter.2 ⟨he, ?_⟩, hek⟩
    simp [hek, hk]

theorem assign_key_self (m : CoinMap) (id : String) (cs : coinset) :
    id ∈ (m.assign id cs).map Prod.fst := by
  unfold CoinMap.assign
  simp

theorem readRows_nodup (decode : String → Option RicardianContract)
    (rows : List (Value × Value)) (m0 m : CoinMap)
    (h : readRows decode rows m0 = .ok m) (hnd : (m0.map Prod.fst).Nodup) :
    (m.map Prod.fst).Nodup := by
  induction rows generalizing m0 with
  | nil =>
    simp only [readRows] at h
    injection h with h; subst h; exact hnd
  | cons row rest ih =>
    obtain ⟨id, doc, _, hcase⟩ := readRows_cons_ok decode row rest m0 m h
    rcases hcase with ⟨_, hrest⟩ | ⟨_, c, ct, pc, _, _, _, hrest⟩
    · exact ih m0 hrest hnd
    · exact ih _ hrest (assign_keys_nodup m0 id _ hnd)

theorem readRows_mem (decode : String → Option RicardianContract)
    (rows : List (Value × Value)) (m0 m : CoinMap)
    (h : readRows decode rows m0 = .ok m) (e : String × coinset) (he : e ∈ m) :
    e ∈ m0 ∨ ∃ doc c, (some e.1, some doc) ∈ rows ∧ doc ≠ "" ∧ decode doc = some c ∧
      coinTypeForContract c = .ok e.2.coinType ∧
      paymentCoinForContract c = .ok e.2.paymentCoin := by
  induction rows generalizing m0 with
  | nil =>
    simp only [readRows] at h
    injection h with h; subst h; exact Or.inl he
  | cons row rest ih =>
    obtain ⟨id, doc, hrow, hcase⟩ := readRows_cons_ok decode row rest m0 m h
    rcases hcase with ⟨_, hrest⟩ | ⟨hdoc, c, ct, pc, hc, hct, hpc, hrest⟩
    · rcases ih m0 hrest with h0 | ⟨d, c, hd, hrest2⟩
      · exact Or.inl h0
      · exact Or.inr ⟨d, c, List.mem_cons_of_mem _ hd, hrest2⟩
    · rcases ih _ hrest with h0 | ⟨d, c1, hd, hrest2⟩
      · rcases assign_mem m0 id _ e h0 with heq | hin
        · right
          subst heq
          exact ⟨doc, c, by rw [hrow]; exact List.mem_cons_self _ _, hdoc, hc, hct, hpc⟩
        · exact Or.inl hin
      · exact Or.inr ⟨d, c1, List.mem_cons_of_mem _ hd, hrest2⟩

theorem readRows_keys (decode : String → Option RicardianContract)
    (rows : List (Value × Value)) (m0 m : CoinMap)
    (h : readRows decode rows m0 = .ok m) (id : String)
    (hid : id ∈ m0.map Prod.fst ∨ ∃ doc, (some id, some doc) ∈ rows ∧ doc ≠ "") :
    id ∈ m.map Prod.fst := by
  induction rows generalizing m0 with
  | nil =>
    simp only [readRows] at h
    injection h with h; subst h
    rcases hid with h0 | ⟨doc, hd, _⟩
    · exact h0
    · simp at hd
  | cons row rest ih =>
    obtain ⟨id1, doc1, hrow, hcase⟩ := readRows_cons_ok decode row rest m0 m h
    rcases hcase with ⟨hdoc1, hrest⟩ | ⟨hdoc1, c, ct, pc, _, _, _, hrest⟩
    · apply ih m0 hrest
      rcases hid with h0 | ⟨doc, hd, hne⟩
      · exact Or.inl h0
      · rcases List.mem_cons.1 hd with heq | hin
        · rw [hrow] at heq
          injection heq with _ h2
          injection h2 with h2
          exact absurd (h2.trans hdoc1) hne
        · exact Or.inr ⟨doc, hin, hne⟩
    · apply ih _ hrest
      rcases hid with h0 | ⟨doc, hd, hne⟩
      · exact Or.inl (assign_keys_mono m0 id1 id _ h0)
      · rcases List.mem_cons.1 hd with heq | hin
        · rw [hrow] at heq
          injection heq with h1 _
          injection h1 with h1
          subst h1
          exact Or.inl (assign_key_self m0 id _)
        · exact Or.inr ⟨doc, hin, hne⟩

theorem readRows_bad (decode : String → Option RicardianContract)
    (rows : List (Value × Value)) (id doc : String)
    (hmem : (some id, some doc) ∈ rows) (hdoc : doc ≠ "") (hdec : decode doc = none)
    (m0 m : CoinMap) : readRows decode rows m0 ≠ .ok m := by
  induction rows generalizing m0 with
  | nil => simp at hmem
  | cons row rest ih =>
    intro h
    obtain ⟨id1, doc1, hrow, hcase⟩ := readRows_cons_ok decode row rest m0 m h
    rcases List.mem_cons.1 hmem with heq | hin
    · rw [hrow] at heq
      injection heq with _ h2
      injection h2 with h2
      subst h2
      rcases hcase with ⟨he, _⟩ | ⟨_, c, _, _, hc, _⟩
      · exact hdoc he
      · rw [hdec] at hc; simp at hc
    · rcases hcase with ⟨_, hrest⟩ | ⟨_, _, _, _, _, _, _, hrest⟩
      · exact ih hin m0 hrest
      · exact ih hin _ hrest

theorem readRows_filter (decode : String → Option RicardianContract)
    (rows : List (Value × Value)) (m0 : CoinMap) (hid : ∀ p ∈ rows, p.1 ≠ none) :
    readRows decode (rows.filter (fun p => decide (p.2 ≠ some ""))) m0
      = readRows decode rows m0 := by
  induction rows generalizing m0 with
  | nil => rfl
  | cons row rest ih =>
    have hrest : ∀ p ∈ rest, p.1 ≠ none := fun p hp => hid p (List.mem_cons_of_mem _ hp)
    have hrow := hid row (List.mem_cons_self _ _)
    obtain ⟨a, b⟩ := row
    cases a with
    | none => simp at hrow
    | some id =>
      by_cases hb : b = some ""
      · subst hb
        simp only [ne_eq, not_true_eq_false, decide_False, Bool.false_eq_true,
          not_false_eq_true, List.filter_cons_of_neg]
        rw [ih m0 hrest]
        simp [readRows, scanRow]
      · rw [List.filter_cons_of_pos (by simpa using hb)]
        cases b with
        | none => simp [readRows, scanRow]
        | some doc =>
          have hd : doc ≠ "" := fun h => hb (by rw [h])
          simp only [readRows, scanRow, hd, if_false]
          split
          · rfl
          · split
            · rfl
            · split
              · rfl
              · exact ih _ hrest

/-! ## Lemmas on the write phase -/

theorem updateColumnsMissing_congr (t1 t2 : Table) (idColumn : String) (h : t1.cols = t2.cols) :
    updateColumnsMissing t1 idColumn = updateColumnsMissing t2 idColumn := by
  unfold updateColumnsMissing Table.colNames
  rw [h]

theorem DB.setTable_self (db : DB) (table : String) (t : Table) (h : db.tables table = some t) :
    db.setTable table (some t) = db.tables := by
  funext n
  unfold DB.setTable
  split
  · rename_i hn; rw [hn, h]
  · rfl

theorem execAll_updates_ok (table idColumn : String) (m : CoinMap) (k : Nat) (db : DB) (t : Table)
    (ht : db.tables table = some t) (hcols : updateColumnsMissing t idColumn = none) :
    execAll noFault k db (updateStatements table idColumn m)
      = .ok { db with
          tables := db.setTable table (some { t with rows := t.rows.map (applyCoins idColumn m) }) } := by
  induction m generalizing k db t with
  | nil =>
    have hid : applyCoins idColumn [] = id := by funext r; rfl
    simp only [updateStatements, List.map_nil, execAll, hid, List.map_id]
    rw [DB.setTable_self db table t ht]
  | cons e m ih =>
    simp only [updateStatements, List.map_cons, execAll, noFault, Bool.false_eq_true, if_false,
      exec, ht, hcols]
    let t1 : Table := { t with rows := t.rows.map (updateRow idColumn e.2.coinType e.2.paymentCoin e.1) }
    let db1 : DB := { db with tables := db.setTable table (some t1) }
    have h1 := ih (k + 1) db1 t1 (by simp [db1, DB.setTable])
      (by rw [← hcols]; exact updateColumnsMissing_congr _ _ _ rfl)
    simp only [updateStatements] at h1
    show execAll noFault (k + 1) db1 _ = _
    rw [h1]
    congr 2
    funext n
    simp only [db1, t1, DB.setTable, List.map_map]
    split
    · rfl
    · rfl

theorem execAll_updates_error (table idColumn c : String) (e : String × coinset) (m : CoinMap)
    (k : Nat) (db : DB) (t : Table)
    (ht : db.tables table = some t) (hcols : updateColumnsMissing t idColumn = some c) :
    execAll noFault k db (updateStatements table idColumn (e :: m))
      = .error (.sql (.noSuchColumn c)) := by
  simp only [updateStatements, List.map_cons, execAll, noFault, Bool.false_eq_true, if_false,
    exec, ht, hcols]

theorem execAll_updates_shape (table idColumn : String) (m : CoinMap) (k : Nat) (db db1 : DB)
    (t : Table) (ht : db.tables table = some t)
    (h : execAll noFault k db (updateStatements table idColumn m) = .ok db1) :
    db1 = { db with
      tables := db.setTable table (some { t with rows := t.rows.map (applyCoins idColumn m) }) } := by
  cases m with
  | nil =>
    have hid : applyCoins idColumn [] = id := by funext r; rfl
    simp only [updateStatements, List.map_nil, execAll] at h
    injection h with h
    subst h
    simp only [hid, List.map_id]
    rw [DB.setTable_self db table t ht]
  | cons e m =>
    cases hc : updateColumnsMissing t idColumn with
    | none =>
      rw [execAll_updates_ok table idColumn (e :: m) k db t ht hc] at h
      injection h with h
      exact h.symm
    | some c =>
      rw [execAll_updates_error table idColumn c e m k db t ht hc] at h
      simp at h

/-! ## Lemmas on the backfill pass -/

theorem query_ok (db : DB) (table idColumn : String) (contractColumn : DocExpr)
    (rows : List (Value × Value)) (h : query db table idColumn contractColumn = .ok rows) :
    ∃ t, db.tables table = some t ∧ rows = resultSet t idColumn contractColumn := by
  unfold query at h
  split at h
  · simp at h
  · rename_i t ht
    split at h
    · simp at h
    · injection h with h
      exact ⟨t, ht, h.symm⟩

theorem backfill_fault_unchanged (decode : String → Option RicardianContract) (db : DB)
    (table idColumn : String) (contractColumn : DocExpr)
    (h : (migration009UpdateTablesCoins decode db table idColumn contractColumn).1 ≠ none) :
    (migration009UpdateTablesCoins decode db table idColumn contractColumn).2 = db := by
  unfold migration009UpdateTablesCoins at h ⊢
  cases hq : query db table idColumn contractColumn with
  | error e => rfl
  | ok rows =>
    cases hm : readRows decode rows [] with
    | error e => simp [hm]
    | ok m =>
      cases hx : execAll noFault 0 db (updateStatements table idColumn m) with
      | ok db1 => simp [hq, hm, withTransaction, hx] at h
      | error e => simp [hm, withTransaction, hx]

theorem backfill_ok_shape (decode : String → Option RicardianContract) (db db1 : DB)
    (table idColumn : String) (contractColumn : DocExpr)
    (h : migration009UpdateTablesCoins decode db table idColumn contractColumn = (none, db1)) :
    ∃ t m, db.tables table = some t ∧
      query db table idColumn contractColumn = .ok (resultSet t idColumn contractColumn) ∧
      readRows decode (resultSet t idColumn contractColumn) [] = .ok m ∧
      db1 = { db with
        tables := db.setTable table (some { t with rows := t.rows.map (applyCoins idColumn m) }) } := by
  unfold migration009UpdateTablesCoins at h
  split at h
  · simp at h
  · rename_i rows hq
    obtain ⟨t, ht, hrows⟩ := query_ok db table idColumn contractColumn rows hq
    subst hrows
    split at h
    · simp at h
    · rename_i m hm
      simp only [withTransaction] at h
      split at h
      · rename_i db2 hx
        injection h with _ h2
        subst h2
        exact ⟨t, m, ht, hq, hm, execAll_updates_shape table idColumn m 0 db db2 t ht hx⟩
      · simp at h

theorem target_columns (table idColumn : String) (contractColumn : DocExpr)
    (h : (table, idColumn, contractColumn) ∈ backfillTargets) :
    idColumn ≠ "coinType" ∧ idColumn ≠ "paymentCoin" ∧
      ∀ c ∈ contractColumn.columns, c ≠ "coinType" ∧ c ≠ "paymentCoin" := by
  simp only [backfillTargets, List.mem_cons, Prod.mk.injEq, List.mem_singleton,
    List.not_mem_nil, or_false] at h
  rcases h with ⟨_, h1, h2⟩ | ⟨_, h1, h2⟩ | ⟨_, h1, h2⟩ <;> subst h1 <;> subst h2 <;>
    simp [DocExpr.columns]

theorem eval_applyCoins (idColumn : String) (contractColumn : DocExpr) (m : CoinMap) (r : Row)
    (h : ∀ c ∈ contractColumn.columns, c ≠ "coinType" ∧ c ≠ "paymentCoin") :
    contractColumn.eval (applyCoins idColumn m r) = contractColumn.eval r := by
  cases contractColumn with
  | column c =>
    have hc := h c (by simp [DocExpr.columns])
    simp only [DocExpr.eval]
    exact applyCoins_other idColumn c m r hc.1 hc.2
  | coalesce a b =>
    have ha := h a (by simp [DocExpr.columns])
    have hb := h b (by simp [DocExpr.columns])
    simp only [DocExpr.eval]
    rw [applyCoins_other idColumn a m r ha.1 ha.2, applyCoins_other idColumn b m r hb.1 hb.2]

theorem primaryKey_unique (t : Table) (idColumn : String) (hkey : PrimaryKey t idColumn)
    (r1 r2 : Row) (h1 : r1 ∈ t.rows) (h2 : r2 ∈ t.rows) (h : r1 idColumn = r2 idColumn) :
    r1 = r2 :=
  List.inj_on_of_nodup_map hkey.2 h1 h2 h

theorem mem_resultSet (t : Table) (idColumn : String) (contractColumn : DocExpr)
    (a b : Value) (h : (a, b) ∈ resultSet t idColumn contractColumn) :
    ∃ r ∈ t.rows, r idColumn = a ∧ contractColumn.eval r = b := by
  unfold resultSet at h
  obtain ⟨r, hr, heq⟩ := List.mem_map.1 h
  injection heq with h1 h2
  exact ⟨r, hr, h1, h2⟩

theorem paymentCoin_declared (contract : RicardianContract) (order : Order)
    (payment : Order_Payment) (ho : contract.BuyerOrder = some order)
    (hp : order.Payment = some payment) (hc : payment.Coin ≠ "") :
    paymentCoinForContract contract = .ok payment.Coin := by
  simp [paymentCoinForContract, ho, hp, hc]

theorem paymentCoin_fallback (contract : RicardianContract) (order : Order)
    (payment : Order_Payment) (listing : Listing) (metadata : Listing_Metadata) (first : String)
    (ho : contract.BuyerOrder = some order) (hp : order.Payment = some payment)
    (hc : payment.Coin = "") (hl : contract.VendorListings.head? = some listing)
    (hm : listing.Metadata = some metadata)
    (ha : metadata.AcceptedCurrencies.head? = some first) :
    paymentCoinForContract contract = .ok first := by
  obtain ⟨listings, order1⟩ := contract
  cases listings with
  | nil => simp at hl
  | cons l ls =>
    simp only [List.head?_cons, Option.some.injEq] at hl
    subst hl
    obtain ⟨accepted, coinType⟩ := metadata
    cases accepted with
    | nil => simp at ha
    | cons a as =>
      simp only [List.head?_cons, Option.some.injEq] at ha
      subst ha
      simp only at ho
      simp [paymentCoinForContract, ho, hp, hc, hm]

/-- What a successful pass leaves in the row of a decodable, non-empty document: exactly
the pair the two derivations return on it. -/
theorem backfill_row (decode : String → Option RicardianContract) (db db1 : DB)
    (table idColumn : String) (contractColumn : DocExpr)
    (htarget : (table, idColumn, contractColumn) ∈ backfillTargets)
    (t : Table) (ht : db.tables table = some t) (hkey : PrimaryKey t idColumn)
    (hrun : migration009UpdateTablesCoins decode db table idColumn contractColumn = (none, db1))
    (r : Row) (hr : r ∈ t.rows) (id doc : String) (hid : r idColumn = some id)
    (hdoc : contractColumn.eval r = some doc) (hne : doc ≠ "")
    (contract : RicardianContract) (hdec : decode doc = some contract) :
    ∃ ct pc, coinTypeForContract contract = .ok ct ∧ paymentCoinForContract contract = .ok pc ∧
      ∃ t1, db1.tables table = some t1 ∧ t1.cols = t.cols ∧
        (∃ r1 ∈ t1.rows, r1 idColumn = some id) ∧
        ∀ r1 ∈ t1.rows, r1 idColumn = some id →
          r1 = (r.set "coinType" (some ct)).set "paymentCoin" (some pc) := by
  obtain ⟨hc1, hc2, _⟩ := target_columns table idColumn contractColumn htarget
  obtain ⟨t0, m, ht0, _, hm, hdb⟩ := backfill_ok_shape decode db db1 table idColumn contractColumn hrun
  rw [ht] at ht0
  injection ht0 with ht0
  subst ht0
  have hrow : (some id, some doc) ∈ resultSet t idColumn contractColumn := by
    unfold resultSet
    exact List.mem_map.2 ⟨r, hr, by rw [hid, hdoc]⟩
  have hkeyin := readRows_keys decode _ [] m hm id (Or.inr ⟨doc, hrow, hne⟩)
  obtain ⟨⟨id1, cs⟩, hmem, hfst⟩ := List.mem_map.1 hkeyin
  simp only at hfst
  subst hfst
  have hnd := readRows_nodup decode _ [] m hm (by simp)
  rcases readRows_mem decode _ [] m hm (id1, cs) hmem with h0 | ⟨doc1, c1, hin, _, hdec1, hct, hpc⟩
  · simp at h0
  obtain ⟨r2, hr2, hid2, hdoc2⟩ := mem_resultSet t idColumn contractColumn _ _ hin
  have hsame : r2 = r := primaryKey_unique t idColumn hkey r2 r hr2 hr (by rw [hid2, hid])
  subst hsame
  have hd : doc1 = doc := by
    rw [hdoc] at hdoc2
    injection hdoc2 with h
    exact h.symm
  subst hd
  rw [hdec] at hdec1
  injection hdec1 with hdec1
  subst hdec1
  have happly : applyCoins idColumn m r2
      = (r2.set "coinType" (some cs.coinType)).set "paymentCoin" (some cs.paymentCoin) :=
    applyCoins_of_mem idColumn id1 cs m r2 hc1 hc2 hnd hmem hid
  refine ⟨cs.coinType, cs.paymentCoin, hct, hpc,
    { t with rows := t.rows.map (applyCoins idColumn m) }, ?_, rfl, ?_, ?_⟩
  · rw [hdb]; simp [DB.setTable]
  · refine ⟨applyCoins idColumn m r2, List.mem_map.2 ⟨r2, hr, rfl⟩, ?_⟩
    rw [applyCoins_other idColumn idColumn m r2 hc1 hc2, hid]
  · intro r1 hr1 hid1
    obtain ⟨r0, hr0, h01⟩ := List.mem_map.1 hr1
    subst h01
    rw [applyCoins_other idColumn idColumn m r0 hc1 hc2] at hid1
    have h0 : r0 = r2 := primaryKey_unique t idColumn hkey r0 r2 hr0 hr (by rw [hid1, hid])
    subst h0
    exact happly

theorem passes_true (decode : String → Option RicardianContract) (p : Value × Value)
    (hp : passes decode p = true) :
    ∃ id doc, p = (some id, some doc) ∧
      (doc = "" ∨ (doc ≠ "" ∧ ∃ c ct pc, decode doc = some c ∧
        coinTypeForContract c = .ok ct ∧ paymentCoinForContract c = .ok pc)) := by
  unfold passes at hp
  split at hp
  · simp at hp
  · rename_i id doc hscan
    refine ⟨id, doc, scanRow_ok _ _ _ hscan, ?_⟩
    split at hp
    · rename_i hd
      exact Or.inl hd
    · rename_i hd
      refine Or.inr ⟨hd, ?_⟩
      split at hp
      · simp at hp
      · rename_i c hc
        split at hp
        · rename_i ct pc hct hpc
          exact ⟨c, ct, pc, hc, hct, hpc⟩
        · simp at hp

theorem readRows_pass (decode : String → Option RicardianContract)
    (pre rest : List (Value × Value)) (m0 : CoinMap)
    (h : ∀ p ∈ pre, passes decode p = true) :
    ∃ m1, readRows decode (pre ++ rest) m0 = readRows decode rest m1 := by
  induction pre generalizing m0 with
  | nil => exact ⟨m0, rfl⟩
  | cons p pre ih =>
    have hrest : ∀ q ∈ pre, passes decode q = true := fun q hq => h q (List.mem_cons_of_mem _ hq)
    obtain ⟨id, doc, hp, hcase⟩ := passes_true decode p (h p (List.mem_cons_self _ _))
    subst hp
    rcases hcase with hd | ⟨hd, c, ct, pc, hc, hct, hpc⟩
    · obtain ⟨m1, hm1⟩ := ih m0 hrest
      refine ⟨m1, ?_⟩
      rw [← hm1]
      simp [readRows, scanRow, hd]
    · obtain ⟨m1, hm1⟩ := ih (m0.assign id { paymentCoin := pc, coinType := ct }) hrest
      refine ⟨m1, ?_⟩
      rw [← hm1]
      simp [readRows, scanRow, hd, hc, hct, hpc]

theorem query_of_table (db : DB) (table idColumn : String) (contractColumn : DocExpr)
    (t : Table) (ht : db.tables table = some t) :
    query db table idColumn contractColumn =
      match queryColumnsMissing t idColumn contractColumn with
      | some c => .error (.noSuchColumn c)
      | none => .ok (resultSet t idColumn contractColumn) := by
  simp only [query, ht]

theorem backfill_fault (decode : String → Option RicardianContract) (db : DB)
    (table idColumn : String) (contractColumn : DocExpr) (t : Table)
    (ht : db.tables table = some t) :
    (migration009UpdateTablesCoins decode db table idColumn contractColumn).1
      = passFault decode t idColumn contractColumn := by
  unfold migration009UpdateTablesCoins passFault
  rw [query_of_table db table idColumn contractColumn t ht]
  cases queryColumnsMissing t idColumn contractColumn with
  | some c => rfl
  | none =>
    simp only
    cases hm : readRows decode (resultSet t idColumn contractColumn) [] with
    | error e => rfl
    | ok m =>
      simp only [withTransaction]
      cases m with
      | nil => simp [updateStatements, execAll]
      | cons e m =>
        cases hc : updateColumnsMissing t idColumn with
        | none => rw [execAll_updates_ok table idColumn (e :: m) 0 db t ht hc]; rfl
        | some c => rw [execAll_updates_error table idColumn c e m 0 db t ht hc]; rfl

theorem applyCoins_idem (idColumn : String) (m : CoinMap) (r : Row)
    (h1 : idColumn ≠ "coinType") (h2 : idColumn ≠ "paymentCoin")
    (hnd : (m.map Prod.fst).Nodup) :
    applyCoins idColumn m (applyCoins idColumn m r) = applyCoins idColumn m r := by
  by_cases hex : ∃ e ∈ m, r idColumn = some e.1
  · obtain ⟨⟨id, cs⟩, hmem, hid⟩ := hex
    have hfirst := applyCoins_of_mem idColumn id cs m r h1 h2 hnd hmem hid
    rw [hfirst]
    have hid2 : ((r.set "coinType" (some cs.coinType)).set "paymentCoin" (some cs.paymentCoin))
        idColumn = some id := by
      simp [Row.set, h1, h2, hid]
    rw [applyCoins_of_mem idColumn id cs m _ h1 h2 hnd hmem hid2]
    funext c
    simp only [Row.set]
    split
    · rfl
    · split
      · rfl
      · rfl
  · have hno : ∀ e ∈ m, r idColumn ≠ some e.1 := fun e he hc => hex ⟨e, he, hc⟩
    rw [applyCoins_of_not_mem idColumn m r hno, applyCoins_of_not_mem idColumn m r hno]

theorem resultSet_applyCoins (t : Table) (idColumn : String) (contractColumn : DocExpr)
    (m : CoinMap) (h1 : idColumn ≠ "coinType") (h2 : idColumn ≠ "paymentCoin")
    (h3 : ∀ c ∈ contractColumn.columns, c ≠ "coinType" ∧ c ≠ "paymentCoin") :
    resultSet { t with rows := t.rows.map (applyCoins idColumn m) } idColumn contractColumn
      = resultSet t idColumn contractColumn := by
  unfold resultSet
  simp only [List.map_map]
  apply List.map_congr_left
  intro r _
  simp only [Function.comp]
  rw [applyCoins_other idColumn idColumn m r h1 h2, eval_applyCoins idColumn contractColumn m r h3]

/-! ## The order of the write phase

Go iterates over the map `coinsToSet` in an unspecified order.  The bindings have distinct
keys, so the order in which their `UPDATE` statements run does not change the outcome. -/

theorem applyCoins_perm (idColumn : String) (m1 m2 : CoinMap) (r : Row)
    (h1 : idColumn ≠ "coinType") (h2 : idColumn ≠ "paymentCoin")
    (hp : m1.Perm m2) (hnd : (m1.map Prod.fst).Nodup) :
    applyCoins idColumn m1 r = applyCoins idColumn m2 r := by
  have hnd2 : (m2.map Prod.fst).Nodup := (hp.map Prod.fst).nodup_iff.1 hnd
  by_cases hex : ∃ e ∈ m1, r idColumn = some e.1
  · obtain ⟨⟨id, cs⟩, hmem, hid⟩ := hex
    rw [applyCoins_of_mem idColumn id cs m1 r h1 h2 hnd hmem hid,
      applyCoins_of_mem idColumn id cs m2 r h1 h2 hnd2 (hp.subset hmem) hid]
  · have hno1 : ∀ e ∈ m1, r idColumn ≠ some e.1 := fun e he hc => hex ⟨e, he, hc⟩
    have hno2 : ∀ e ∈ m2, r idColumn ≠ some e.1 := fun e he hc => hex ⟨e, hp.symm.subset he, hc⟩
    rw [applyCoins_of_not_mem idColumn m1 r hno1, applyCoins_of_not_mem idColumn m2 r hno2]

theorem execAll_updates_noTable (table idColumn : String) (e : String × coinset) (m : CoinMap)
    (k : Nat) (db : DB) (ht : db.tables table = none) :
    execAll noFault k db (updateStatements table idColumn (e :: m))
      = .error (.sql (.noSuchTable table)) := by
  simp only [updateStatements, List.map_cons, execAll, noFault, Bool.false_eq_true, if_false,
    exec, ht]

theorem write_phase_order (table idColumn : String) (m1 m2 : CoinMap) (k : Nat) (db : DB)
    (h1 : idColumn ≠ "coinType") (h2 : idColumn ≠ "paymentCoin")
    (hp : m1.Perm m2) (hnd : (m1.map Prod.fst).Nodup) :
    execAll noFault k db (updateStatements table idColumn m1)
      = execAll noFault k db (updateStatements table idColumn m2) := by
  cases m1 with
  | nil =>
    have : m2 = [] := List.Perm.eq_nil hp.symm
    rw [this]
  | cons e1 r1 =>
    cases m2 with
    | nil => exact absurd (List.Perm.eq_nil hp) (by simp)
    | cons e2 r2 =>
      cases ht : db.tables table with
      | none =>
        rw [execAll_updates_noTable table idColumn e1 r1 k db ht,
          execAll_updates_noTable table idColumn e2 r2 k db ht]
      | some t =>
        cases hc : updateColumnsMissing t idColumn with
        | some c =>
          rw [execAll_updates_error table idColumn c e1 r1 k db t ht hc,
            execAll_updates_error table idColumn c e2 r2 k db t ht hc]
        | none =>
          rw [execAll_updates_ok table idColumn (e1 :: r1) k db t ht hc,
            execAll_updates_ok table idColumn (e2 :: r2) k db t ht hc]
          have hrows : t.rows.map (applyCoins idColumn (e1 :: r1))
              = t.rows.map (applyCoins idColumn (e2 :: r2)) :=
            List.map_congr_left (fun r _ => applyCoins_perm idColumn _ _ r h1 h2 hp hnd)
          rw [hrows]

/-! ## Lemmas on the schema transactions and the ledger -/

theorem exec_colEffect (db db1 : DB) (s : Stmt) (h : exec db s = .ok db1) :
    tableHasCol db1 = s.colEffect (tableHasCol db) := by
  funext n c
  cases s with
  | alterAddColumn table col dflt =>
    simp only [exec] at h
    split at h
    · simp at h
    · rename_i t ht
      split at h
      · simp at h
      · injection h with h
        subst h
        simp only [tableHasCol, DB.setTable, Stmt.colEffect]
        by_cases hn : n = table
        · subst hn
          simp [ht, Table.colNames]
        · simp [hn]
  | alterRename table newName =>
    simp only [exec] at h
    split at h
    · simp at h
    · rename_i t ht
      split at h
      · simp at h
      · injection h with h
        subst h
        simp only [tableHasCol, Stmt.colEffect]
        by_cases hn : n = newName
        · simp [hn, ht]
        · by_cases hn2 : n = table
          · subst hn2
            simp [hn]
          · simp [hn, hn2]
  | createTable name cols =>
    simp only [exec] at h
    split at h
    · simp at h
    · split at h
      · simp at h
      · injection h with h
        subst h
        simp only [tableHasCol, DB.setTable, Stmt.colEffect]
        by_cases hn : n = name
        · simp [hn, Table.colNames]
        · simp [hn]
  | createIndex name table cols =>
    simp only [exec] at h
    split at h
    · simp at h
    · split at h
      · simp at h
      · split at h
        · simp at h
        · split at h
          · simp at h
          · injection h with h
            subst h
            simp [tableHasCol, Stmt.colEffect]
  | insertSelect target cols source =>
    simp only [exec] at h
    split at h
    · simp at h
    · rename_i t ht
      split at h
      · simp at h
      · split at h
        · simp at h
        · split at h
          · simp at h
          · injection h with h
            subst h
            simp only [tableHasCol, DB.setTable, Stmt.colEffect]
            by_cases hn : n = target
            · subst hn
              simp [ht, Table.colNames]
            · simp [hn]
  | dropTable name =>
    simp only [exec] at h
    split at h
    · simp at h
    · injection h with h
      subst h
      simp only [tableHasCol, DB.setTable, Stmt.colEffect]
      by_cases hn : n = name
      · simp [hn]
      · simp [hn]
  | updateCoins table idColumn coinType paymentCoin id =>
    simp only [exec] at h
    split at h
    · simp at h
    · rename_i t ht
      split at h
      · simp at h
      · injection h with h
        subst h
        simp only [tableHasCol, DB.setTable, Stmt.colEffect]
        by_cases hn : n = table
        · subst hn
          simp [ht, Table.colNames]
        · simp [hn]

theorem execAll_colEffect (fault : Nat → Bool) (stmts : List Stmt) (k : Nat) (db db1 : DB)
    (h : execAll fault k db stmts = .ok db1) :
    tableHasCol db1 = stmts.foldl (fun has s => s.colEffect has) (tableHasCol db) := by
  induction stmts generalizing k db with
  | nil =>
    simp only [execAll] at h
    injection h with h
    subst h
    rfl
  | cons s rest ih =>
    simp only [execAll] at h
    split at h
    · simp at h
    · split at h
      · simp at h
      · rename_i db2 hs
        rw [List.foldl_cons, ← exec_colEffect db db2 s hs]
        exact ih (k + 1) db2 h

theorem up_adds_columns (fault : Nat → Bool) (k : Nat) (db db1 : DB)
    (h : execAll fault k db upStatements = .ok db1) : hasCoinColumns db1 = true := by
  have hc := execAll_colEffect fault upStatements k db db1 h
  simp [hasCoinColumns, coinTables, hc, upStatements, Stmt.colEffect]

theorem down_drops_columns (fault : Nat → Bool) (k : Nat) (db db1 : DB)
    (h : execAll fault k db downStatements = .ok db1) : lacksCoinColumns db1 = true := by
  have hc := execAll_colEffect fault downStatements k db db1 h
  simp [lacksCoinColumns, coinTables, hc, downStatements, Stmt.colEffect,
    Migration009CreateCasesTable, Migration009CreateSalesTable, Migration009CreatePurchasesTable]

theorem backfill_result (decode : String → Option RicardianContract) (db : DB)
    (table idColumn : String) (contractColumn : DocExpr) :
    (migration009UpdateTablesCoins decode db table idColumn contractColumn).2 = db ∨
      ∃ t m, db.tables table = some t ∧
        (migration009UpdateTablesCoins decode db table idColumn contractColumn).2
          = { db with
              tables := db.setTable table
                (some { t with rows := t.rows.map (applyCoins idColumn m) }) } := by
  cases hres : (migration009UpdateTablesCoins decode db table idColumn contractColumn).1 with
  | some e =>
    left
    exact backfill_fault_unchanged decode db table idColumn contractColumn (by rw [hres]; simp)
  | none =>
    right
    obtain ⟨t, m, ht, _, _, hdb⟩ := backfill_ok_shape decode db _ table idColumn contractColumn
      (Prod.ext hres rfl)
    exact ⟨t, m, ht, hdb⟩

theorem backfill_frame (decode : String → Option RicardianContract) (db : DB)
    (table idColumn : String) (contractColumn : DocExpr) (n : String) (hn : n ≠ table) :
    (migration009UpdateTablesCoins decode db table idColumn contractColumn).2.tables n
      = db.tables n := by
  rcases backfill_result decode db table idColumn contractColumn with h | ⟨t, m, _, h⟩
  · rw [h]
  · rw [h]
    simp [DB.setTable, hn]

theorem backfill_columns (decode : String → Option RicardianContract) (db : DB)
    (table idColumn : String) (contractColumn : DocExpr) :
    tableHasCol (migration009UpdateTablesCoins decode db table idColumn contractColumn).2
      = tableHasCol db := by
  rcases backfill_result decode db table idColumn contractColumn with h | ⟨t, m, ht, h⟩
  · rw [h]
  · rw [h]
    funext n c
    simp only [tableHasCol, DB.setTable]
    by_cases hn : n = table
    · subst hn
      simp [ht, Table.colNames]
    · simp [hn]

theorem hasCoinColumns_congr (db1 db2 : DB) (h : tableHasCol db1 = tableHasCol db2) :
    hasCoinColumns db1 = hasCoinColumns db2 := by
  unfold hasCoinColumns
  rw [h]

theorem writeRepoVer_ok (env : Env) (w w1 : World) (version : Nat)
    (h : writeRepoVer env w version = (none, w1)) :
    env.ledgerFault = false ∧ w1 = { w with repover := version } := by
  unfold writeRepoVer at h
  split at h
  · simp at h
  · rename_i hf
    injection h with _ h2
    exact ⟨by simpa using hf, h2.symm⟩

theorem writeRepoVer_fault (env : Env) (w w1 : World) (version : Nat) (e : Fault)
    (h : writeRepoVer env w version = (some e, w1)) :
    env.ledgerFault = true ∧ e = .ledgerWrite ∧ w1 = w := by
  unfold writeRepoVer at h
  split at h
  · rename_i hf
    injection h with h1 h2
    injection h1 with h1
    exact ⟨hf, h1.symm, h2.symm⟩
  · simp at h

theorem Up_open (env : Env) (w : World) (ho : env.openFault = true) :
    Up env w = (some .openDB, w) := by
  simp [Up, NewDB, ho]

theorem Up_ddl_fault (env : Env) (w : World) (e : Fault) (ho : env.openFault = false)
    (hd : execAll env.ddlFault 0 w.db upStatements = .error e) :
    Up env w = (some e, w) := by
  simp [Up, NewDB, ho, withTransaction, hd]

theorem Up_ledger_fault (env : Env) (w : World) (db0 : DB) (ho : env.openFault = false)
    (hd : execAll env.ddlFault 0 w.db upStatements = .ok db0) (hl : env.ledgerFault = true) :
    Up env w = (some .ledgerWrite, { w with db := db0 }) := by
  simp [Up, NewDB, ho, withTransaction, hd, writeRepoVer, hl]

theorem Up_backfill (env : Env) (w : World) (db0 : DB) (ho : env.openFault = false)
    (hd : execAll env.ddlFault 0 w.db upStatements = .ok db0) (hl : env.ledgerFault = false) :
    Up env w =
      match migration009UpdateTablesCoins env.decode db0 "cases" "caseID"
          (.coalesce "buyerContract" "vendorContract") with
      | (some err, db1) => (some err, { db := db1, repover := 10 })
      | (none, db1) =>
        match migration009UpdateTablesCoins env.decode db1 "sales" "orderID"
            (.column "contract") with
        | (some err, db2) => (some err, { db := db2, repover := 10 })
        | (none, db2) =>
          match migration009UpdateTablesCoins env.decode db2 "purchases" "orderID"
              (.column "contract") with
          | (some err, db3) => (some err, { db := db3, repover := 10 })
          | (none, db3) => (none, { db := db3, repover := 10 }) := by
  simp only [Up, NewDB, ho, Bool.false_eq_true, if_false, withTransaction, hd, writeRepoVer, hl]

theorem Down_open (env : Env) (w : World) (ho : env.openFault = true) :
    Down env w = (some .openDB, w) := by
  simp [Down, NewDB, ho]

theorem Down_ddl_fault (env : Env) (w : World) (e : Fault) (ho : env.openFault = false)
    (hd : execAll env.ddlFault 0 w.db downStatements = .error e) :
    Down env w = (some e, w) := by
  simp [Down, NewDB, ho, withTransaction, hd]

theorem Down_ledger_fault (env : Env) (w : World) (db0 : DB) (ho : env.openFault = false)
    (hd : execAll env.ddlFault 0 w.db downStatements = .ok db0) (hl : env.ledgerFault = true) :
    Down env w = (some .ledgerWrite, { w with db := db0 }) := by
  simp [Down, NewDB, ho, withTransaction, hd, writeRepoVer, hl]

theorem Down_ok (env : Env) (w : World) (db0 : DB) (ho : env.openFault = false)
    (hd : execAll env.ddlFault 0 w.db downStatements = .ok db0) (hl : env.ledgerFault = false) :
    Down env w = (none, { db := db0, repover := 9 }) := by
  simp [Down, NewDB, ho, withTransaction, hd, writeRepoVer, hl]

theorem backfill_keeps_columns (decode : String → Option RicardianContract) (db : DB)
    (table idColumn : String) (contractColumn : DocExpr) (o : Option Fault) (db1 : DB)
    (h : migration009UpdateTablesCoins decode db table idColumn contractColumn = (o, db1))
    (hc : hasCoinColumns db = true) : hasCoinColumns db1 = true := by
  have hcols := backfill_columns decode db table idColumn contractColumn
  rw [h] at hcols
  rw [hasCoinColumns_congr db1 db hcols]
  exact hc

/-- After the schema transaction and the ledger write of `Up` succeed, the ledger holds 10
and the three tables keep the added columns, whatever the backfill does. -/
theorem Up_after_ledger (env : Env) (w : World) (db0 : DB) (ho : env.openFault = false)
    (hd : execAll env.ddlFault 0 w.db upStatements = .ok db0) (hl : env.ledgerFault = false) :
    (Up env w).2.repover = 10 ∧ hasCoinColumns (Up env w).2.db = true := by
  have h0 := up_adds_columns env.ddlFault 0 w.db db0 hd
  rw [Up_backfill env w db0 ho hd hl]
  cases h1 : migration009UpdateTablesCoins env.decode db0 "cases" "caseID"
      (.coalesce "buyerContract" "vendorContract") with
  | mk o1 db1 =>
    have e1 := backfill_keeps_columns _ _ _ _ _ _ _ h1 h0
    cases o1 with
    | some err => exact ⟨rfl, e1⟩
    | none =>
      simp only
      cases h2 : migration009UpdateTablesCoins env.decode db1 "sales" "orderID"
          (.column "contract") with
      | mk o2 db2 =>
        have e2 := backfill_keeps_columns _ _ _ _ _ _ _ h2 e1
        cases o2 with
        | some err => exact ⟨rfl, e2⟩
        | none =>
          simp only
          cases h3 : migration009UpdateTablesCoins env.decode db2 "purchases" "orderID"
              (.column "contract") with
          | mk o3 db3 =>
            have e3 := backfill_keeps_columns _ _ _ _ _ _ _ h3 e2
            cases o3 with
            | some err => exact ⟨rfl, e3⟩
            | none => exact ⟨rfl, e3⟩

/-! ## Lemmas on the indexes -/

theorem exec_indexEffect (db db1 : DB) (s : Stmt) (h : exec db s = .ok db1) :
    db1.indexes = s.indexEffect db.indexes := by
  cases s <;> simp only [exec] at h <;> (repeat' split at h) <;>
    first
      | (simp at h; done)
      | (injection h with h; subst h; rfl)

theorem execAll_cons_ok (fault : Nat → Bool) (k : Nat) (db db1 : DB) (s : Stmt)
    (rest : List Stmt) (h : execAll fault k db (s :: rest) = .ok db1) :
    ∃ db2, exec db s = .ok db2 ∧ execAll fault (k + 1) db2 rest = .ok db1 := by
  simp only [execAll] at h
  split at h
  · simp at h
  · split at h
    · simp at h
    · rename_i db2 hs
      exact ⟨db2, hs, h⟩

theorem exec_createIndex_taken (db : DB) (name table : String) (cols : List String)
    (h : db.hasIndex name = true) (db1 : DB) :
    exec db (.createIndex name table cols) ≠ .ok db1 := by
  intro hx
  simp only [exec] at hx
  split at hx
  · simp at hx
  · split at hx
    · simp at hx
    · simp [h] at hx

/-- The schema transaction of `Down` never commits on a database in which the sales table
carries an index named `index_sales`: the name is still taken when the index is created
anew. -/
theorem down_statements_fail (fault : Nat → Bool) (k : Nat) (db db1 : DB)
    (h : indexOn db "index_sales" "sales" = true) :
    execAll fault k db downStatements ≠ .ok db1 := by
  intro hx
  unfold downStatements at hx
  obtain ⟨d1, h1, hx⟩ := execAll_cons_ok _ _ _ _ _ _ hx
  obtain ⟨d2, h2, hx⟩ := execAll_cons_ok _ _ _ _ _ _ hx
  obtain ⟨d3, h3, hx⟩ := execAll_cons_ok _ _ _ _ _ _ hx
  obtain ⟨d4, h4, hx⟩ := execAll_cons_ok _ _ _ _ _ _ hx
  obtain ⟨d5, h5, hx⟩ := execAll_cons_ok _ _ _ _ _ _ hx
  obtain ⟨d6, h6, hx⟩ := execAll_cons_ok _ _ _ _ _ _ hx
  obtain ⟨d7, h7, _⟩ := execAll_cons_ok _ _ _ _ _ _ hx
  have e1 := exec_indexEffect _ _ _ h1
  have e2 := exec_indexEffect _ _ _ h2
  have e3 := exec_indexEffect _ _ _ h3
  have e4 := exec_indexEffect _ _ _ h4
  have e5 := exec_indexEffect _ _ _ h5
  have e6 := exec_indexEffect _ _ _ h6
  refine exec_createIndex_taken d6 _ _ _ ?_ d7 h7
  simp only [indexOn, List.any_eq_true, Bool.and_eq_true, beq_iff_eq] at h
  obtain ⟨i, hi, hname, htable⟩ := h
  simp only [DB.hasIndex, e6, e5, e4, e3, e2, e1, Stmt.indexEffect, Migration009CreateSalesIndex,
    List.any_eq_true, beq_iff_eq, List.mem_map, List.mem_filter]
  refine ⟨{ i with table := "temp_sales" }, ⟨i, ⟨⟨i, hi, ?_⟩, ?_⟩, ?_⟩, hname⟩
  · simp [htable]
  · simp [htable]
  · simp [htable]

theorem Down_fails_on_index (env : Env) (w : World)
    (h : indexOn w.db "index_sales" "sales" = true) :
    (Down env w).1 ≠ none ∧ (Down env w).2 = w := by
  cases ho : env.openFault with
  | true => rw [Down_open env w ho]; simp
  | false =>
    cases hd : execAll env.ddlFault 0 w.db downStatements with
    | error e => rw [Down_ddl_fault env w e ho hd]; simp
    | ok db0 => exact absurd hd (down_statements_fail env.ddlFault 0 w.db db0 h)

/-! ## Properties of the migration -/

/-- C1, as stated, fails: the only row of the sales table holds a non-empty document that
decodes to a contract whose order/payment section declares the coin TBTC, over a first
listing without metadata section. The coin type is derived first and panics on the nil
dereference, the pass ends there, and the row keeps the default `paymentCoin`, not TBTC. -/
theorem declared_coin_not_written :
    (∀ r ∈ salesTable10.rows, r "orderID" = some "1" ∧ r "contract" = some "contract") ∧
      bareDecode "contract" = some contractWithBareListing ∧
      contractWithBareListing.BuyerOrder = some { Payment := some { Coin := "TBTC" } } ∧
      (migration009UpdateTablesCoins bareDecode salesDB10 "sales" "orderID"
        (.column "contract")).1 = some (.panic .nilDereference) ∧
      (migration009UpdateTablesCoins bareDecode salesDB10 "sales" "orderID"
        (.column "contract")).2.tables "sales" = some salesTable10 ∧
      (∀ r ∈ salesTable10.rows, r "paymentCoin" = some "" ∧ r "paymentCoin" ≠ some "TBTC") := by
  refine ⟨?_, rfl, rfl, rfl, rfl, ?_⟩
  · simp [salesTable10, Row.set, testRow]
  · simp [salesTable10, Row.set]

/-- C1, amended. Payment-coin precedence of the backfill: on cases, sales and purchases,
after a pass over the table that returns no error, the row of a non-empty document that
decodes to a contract with an order/payment section holds (a) the declared coin of that
section when it is not empty, whatever the listings accept, and (b) the first accepted
currency of the first listing when the declared coin is empty and that list is not. -/
theorem paymentCoin_precedence (decode : String → Option RicardianContract) (db db1 : DB)
    (table idColumn : String) (contractColumn : DocExpr)
    (htarget : (table, idColumn, contractColumn) ∈ backfillTargets)
    (t : Table) (ht : db.tables table = some t) (hkey : PrimaryKey t idColumn)
    (hrun : migration009UpdateTablesCoins decode db table idColumn contractColumn = (none, db1))
    (r : Row) (hr : r ∈ t.rows) (id doc : String) (hid : r idColumn = some id)
    (hdoc : contractColumn.eval r = some doc) (hne : doc ≠ "")
    (contract : RicardianContract) (hdec : decode doc = some contract)
    (order : Order) (ho : contract.BuyerOrder = some order)
    (payment : Order_Payment) (hp : order.Payment = some payment) :
    ∃ t1, db1.tables table = some t1 ∧ (∃ r1 ∈ t1.rows, r1 idColumn = some id) ∧
      ∀ r1 ∈ t1.rows, r1 idColumn = some id →
        (payment.Coin ≠ "" → r1 "paymentCoin" = some payment.Coin) ∧
        (payment.Coin = "" → ∀ listing metadata first,
          contract.VendorListings.head? = some listing → listing.Metadata = some metadata →
          metadata.AcceptedCurrencies.head? = some first → r1 "paymentCoin" = some first) := by
  obtain ⟨ct, pc, _, hpc, t1, ht1, _, hex, hall⟩ :=
    backfill_row decode db db1 table idColumn contractColumn htarget t ht hkey hrun r hr id doc
      hid hdoc hne contract hdec
  refine ⟨t1, ht1, hex, ?_⟩
  intro r1 hr1 hid1
  have hval : r1 "paymentCoin" = some pc := by
    rw [hall r1 hr1 hid1]
    simp [Row.set]
  constructor
  · intro hcoin
    rw [paymentCoin_declared contract order payment ho hp hcoin] at hpc
    injection hpc with hpc
    rw [hval, hpc]
  · intro hcoin listing metadata first hl hm ha
    rw [paymentCoin_fallback contract order payment listing metadata first ho hp hcoin hl hm ha]
      at hpc
    injection hpc with hpc
    rw [hval, hpc]

/-- C1, amended, at the input of the test: no declared coin, accepted currencies TBTC. -/
theorem paymentCoin_precedence_witness :
    ∃ t1, (migration009UpdateTablesCoins testDecode salesDB10 "sales" "orderID"
        (.column "contract")).2.tables "sales" = some t1 ∧
      (∃ r1 ∈ t1.rows, r1 "orderID" = some "1") ∧
      ∀ r1 ∈ t1.rows, r1 "orderID" = some "1" → r1 "paymentCoin" = some "TBTC" := by
  obtain ⟨t1, ht1, hex, hall⟩ :=
    paymentCoin_precedence testDecode salesDB10
      (migration009UpdateTablesCoins testDecode salesDB10 "sales" "orderID" (.column "contract")).2
      "sales" "orderID" (.column "contract") (by simp [backfillTargets])
      salesTable10 rfl
      ⟨by simp [salesTable10, Row.set, testRow], by simp [salesTable10]⟩
      (Prod.ext (by decide) rfl)
      (((testRow "orderID" "contract" (some "contract")).set "coinType" (some "")).set
        "paymentCoin" (some ""))
      (by simp [salesTable10]) "1" "contract" (by decide) (by decide) (by decide)
      testContract (by decide) { Payment := some { Coin := "" } } rfl { Coin := "" } rfl
  refine ⟨t1, ht1, hex, ?_⟩
  intro r1 hr1 hid1
  exact (hall r1 hr1 hid1).2 rfl _ _ "TBTC" rfl rfl rfl

/-- C2. On a decoded contract whose order/payment section declares no coin and which has no
listing, `paymentCoinForContract` does not return the empty string: it indexes the empty
listing slice and panics, while `coinTypeForContract` checks the length and returns. -/
theorem paymentCoin_without_listings :
    paymentCoinForContract contractWithoutListings = .error (.panic .indexOutOfRange) ∧
      coinTypeForContract contractWithoutListings = .ok "" :=
  ⟨rfl, rfl⟩

/-- C3, as stated, fails: on a decoded contract whose first listing carries no metadata
section `coinTypeForContract` returns no coin type, it panics on the nil dereference. -/
theorem coinType_bare_listing :
    contractWithBareListing.VendorListings ≠ [] ∧
      coinTypeForContract contractWithBareListing = .error (.panic .nilDereference) :=
  ⟨by decide, rfl⟩

/-- C3, amended. `coinTypeForContract` returns the empty string when the contract has no
listing, and the coin-type field of the first listing when that listing carries its
metadata section. -/
theorem coinType_first_listing (contract : RicardianContract) :
    (contract.VendorListings = [] → coinTypeForContract contract = .ok "") ∧
      (∀ listing metadata, contract.VendorListings.head? = some listing →
        listing.Metadata = some metadata →
        coinTypeForContract contract = .ok metadata.CoinType) := by
  obtain ⟨listings, order⟩ := contract
  constructor
  · intro h
    simp only at h
    subst h
    rfl
  · intro listing metadata hl hm
    cases listings with
    | nil => simp at hl
    | cons l ls =>
      simp only [List.head?_cons, Option.some.injEq] at hl
      subst hl
      simp [coinTypeForContract, hm]

/-- C3, amended, at the document of the test and at a contract without listings. -/
theorem coinType_first_listing_witness :
    coinTypeForContract testContract = .ok "TETH" ∧
      coinTypeForContract contractWithoutListings = .ok "" :=
  ⟨(coinType_first_listing testContract).2 _ _ rfl rfl,
   (coinType_first_listing contractWithoutListings).1 rfl⟩

/-- C7, as stated, fails: a table that contains a row with a non-empty document that does
not decode, read after a row whose document is NULL, makes the backfill return the scan
error of the earlier row, not the decode error. -/
theorem malformed_after_null_document :
    query salesNullThenMalformed "sales" "orderID" (.column "contract")
        = .ok [(some "1", none), (some "2", some "malformed")] ∧
      testDecode "malformed" = none ∧
      (migration009UpdateTablesCoins testDecode salesNullThenMalformed "sales" "orderID"
        (.column "contract")).1 = some .scan :=
  ⟨rfl, rfl, rfl⟩

/-- C7, amended. When the result set of a table contains a row whose non-empty document
fails to decode, the backfill does not succeed and writes no derived value to any row of
the table, rows read before the bad one included; it returns the decode error of that row
when every row read before it passes the read loop: its id and document are not NULL, and
its document is empty or decodes to a contract on which `coinTypeForContract` and
`paymentCoinForContract` both return. -/
theorem malformed_document_aborts (decode : String → Option RicardianContract) (db : DB)
    (table idColumn : String) (contractColumn : DocExpr)
    (pre post : List (Value × Value)) (id doc : String)
    (hq : query db table idColumn contractColumn = .ok (pre ++ (some id, some doc) :: post))
    (hne : doc ≠ "") (hdec : decode doc = none) :
    (migration009UpdateTablesCoins decode db table idColumn contractColumn).1 ≠ none ∧
      (migration009UpdateTablesCoins decode db table idColumn contractColumn).2 = db ∧
      ((∀ p ∈ pre, passes decode p = true) →
        (migration009UpdateTablesCoins decode db table idColumn contractColumn).1
          = some (.decode id)) := by
  have hfail : (migration009UpdateTablesCoins decode db table idColumn contractColumn).1 ≠ none := by
    unfold migration009UpdateTablesCoins
    rw [hq]
    simp only
    cases hm : readRows decode (pre ++ (some id, some doc) :: post) [] with
    | error e => simp
    | ok m =>
      exact absurd hm (readRows_bad decode _ id doc (by simp) hne hdec [] m)
  refine ⟨hfail, backfill_fault_unchanged decode db table idColumn contractColumn hfail, ?_⟩
  intro hpre
  obtain ⟨m1, hm1⟩ := readRows_pass decode pre ((some id, some doc) :: post) [] hpre
  unfold migration009UpdateTablesCoins
  rw [hq]
  simp only
  rw [hm1]
  simp [readRows, scanRow, hne, hdec]

/-- C7, amended, on a table whose first row is the row of the test and whose second row
holds a malformed document. -/
theorem malformed_document_aborts_witness :
    (migration009UpdateTablesCoins testDecode salesGoodThenMalformed "sales" "orderID"
        (.column "contract")).1 ≠ none ∧
      (migration009UpdateTablesCoins testDecode salesGoodThenMalformed "sales" "orderID"
        (.column "contract")).2 = salesGoodThenMalformed ∧
      (migration009UpdateTablesCoins testDecode salesGoodThenMalformed "sales" "orderID"
        (.column "contract")).1 = some (.decode "2") := by
  have h := malformed_document_aborts testDecode salesGoodThenMalformed "sales" "orderID"
    (.column "contract") [(some "1", some "contract")] [] "2" "malformed" rfl (by decide) rfl
  exact ⟨h.1, h.2.1, h.2.2 (by decide)⟩

/-- C8. A row whose document is the empty text keeps every column, `coinType` and
`paymentCoin` included, whatever the outcome of the pass, and the fault of the pass (none
when it succeeds) is the one of the pass over the table without such rows. -/
theorem empty_document_skipped (decode : String → Option RicardianContract) (db : DB)
    (table idColumn : String) (contractColumn : DocExpr) (t : Table)
    (ht : db.tables table = some t) (hkey : PrimaryKey t idColumn) :
    (∀ (i : Nat) (r : Row), t.rows[i]? = some r → contractColumn.eval r = some "" →
      ∃ t1, (migration009UpdateTablesCoins decode db table idColumn contractColumn).2.tables table
          = some t1 ∧ t1.cols = t.cols ∧ t1.rows.length = t.rows.length ∧ t1.rows[i]? = some r) ∧
    (migration009UpdateTablesCoins decode db table idColumn contractColumn).1
      = (migration009UpdateTablesCoins decode (withoutEmptyDocuments db table contractColumn)
          table idColumn contractColumn).1 := by
  constructor
  · intro i r hi hempty
    cases hres : (migration009UpdateTablesCoins decode db table idColumn contractColumn).1 with
    | some e =>
      have hsame := backfill_fault_unchanged decode db table idColumn contractColumn
        (by rw [hres]; simp)
      rw [hsame]
      exact ⟨t, ht, rfl, rfl, hi⟩
    | none =>
      obtain ⟨t0, m, ht0, _, hm, hdb⟩ := backfill_ok_shape decode db
        (migration009UpdateTablesCoins decode db table idColumn contractColumn).2
        table idColumn contractColumn (Prod.ext hres rfl)
      rw [ht] at ht0
      injection ht0 with ht0
      subst ht0
      have hr : r ∈ t.rows := List.getElem?_mem hi
      have hno : ∀ e ∈ m, r idColumn ≠ some e.1 := by
        intro e he hc
        rcases readRows_mem decode _ [] m hm e he with h0 | ⟨doc1, c1, hin, hne1, _⟩
        · simp at h0
        · obtain ⟨r2, hr2, hid2, hdoc2⟩ := mem_resultSet t idColumn contractColumn _ _ hin
          have hsame : r2 = r := primaryKey_unique t idColumn hkey r2 r hr2 hr (by rw [hid2, hc])
          subst hsame
          rw [hempty] at hdoc2
          injection hdoc2 with hdoc2
          exact hne1 hdoc2.symm
      refine ⟨{ t with rows := t.rows.map (applyCoins idColumn m) }, ?_, rfl, ?_, ?_⟩
      · rw [hdb]; simp [DB.setTable]
      · simp
      · simp only [List.getElem?_map, hi, Option.map_some']
        rw [applyCoins_of_not_mem idColumn m r hno]
  · rw [backfill_fault decode db table idColumn contractColumn t ht]
    have ht2 : (withoutEmptyDocuments db table contractColumn).tables table
        = some { t with rows := t.rows.filter (fun r => decide (contractColumn.eval r ≠ some "")) } := by
      simp [withoutEmptyDocuments, ht]
    rw [backfill_fault decode _ table idColumn contractColumn _ ht2]
    have hrs : resultSet
        { t with rows := t.rows.filter (fun r => decide (contractColumn.eval r ≠ some "")) }
        idColumn contractColumn
        = (resultSet t idColumn contractColumn).filter (fun p => decide (p.2 ≠ some "")) := by
      unfold resultSet
      rw [List.filter_map]
      rfl
    have hids : ∀ p ∈ resultSet t idColumn contractColumn, p.1 ≠ none := by
      intro p hp
      obtain ⟨r, hr, h1, _⟩ := mem_resultSet t idColumn contractColumn p.1 p.2 hp
      rw [← h1]
      exact hkey.1 r hr
    unfold passFault
    rw [hrs, readRows_filter decode _ [] hids]
    rfl

/-- C8, on a table holding the row of the test and a row with the empty document: the
second row is kept as it is and the pass returns no error. -/
theorem empty_document_skipped_witness :
    (∃ t1, (migration009UpdateTablesCoins testDecode salesWithEmptyDocument "sales" "orderID"
        (.column "contract")).2.tables "sales" = some t1 ∧
      t1.rows[1]? = some (fun c => if c = "orderID" then some "2"
        else if c = "contract" then some "" else none)) ∧
    (migration009UpdateTablesCoins testDecode salesWithEmptyDocument "sales" "orderID"
        (.column "contract")).1 = none := by
  have h := empty_document_skipped testDecode salesWithEmptyDocument "sales" "orderID"
    (.column "contract") _ rfl
    ⟨by simp [salesTable10, testRow], by simp [salesTable10, testRow]⟩
  obtain ⟨t1, h1, _, _, h4⟩ := h.1 1 _ rfl rfl
  exact ⟨⟨t1, h1, h4⟩, by decide⟩

/-- C10. The backfill is idempotent: on cases, sales and purchases, a second pass over the
state a successful pass leaves succeeds too and leaves that state as it is, every column of
every row included. -/
theorem backfill_idempotent (decode : String → Option RicardianContract) (db db1 : DB)
    (table idColumn : String) (contractColumn : DocExpr)
    (htarget : (table, idColumn, contractColumn) ∈ backfillTargets)
    (hrun : migration009UpdateTablesCoins decode db table idColumn contractColumn = (none, db1)) :
    migration009UpdateTablesCoins decode db1 table idColumn contractColumn = (none, db1) := by
  obtain ⟨hc1, hc2, hc3⟩ := target_columns table idColumn contractColumn htarget
  obtain ⟨t, m, ht, hq, hm, hdb⟩ :=
    backfill_ok_shape decode db db1 table idColumn contractColumn hrun
  have hnd := readRows_nodup decode _ [] m hm (by simp)
  have ht1 : db1.tables table = some { t with rows := t.rows.map (applyCoins idColumn m) } := by
    rw [hdb]; simp [DB.setTable]
  have hqc : queryColumnsMissing t idColumn contractColumn = none := by
    rw [query_of_table db table idColumn contractColumn t ht] at hq
    cases hx : queryColumnsMissing t idColumn contractColumn with
    | none => rfl
    | some c => rw [hx] at hq; simp at hq
  have hq1 : query db1 table idColumn contractColumn = .ok (resultSet t idColumn contractColumn) := by
    rw [query_of_table db1 table idColumn contractColumn _ ht1]
    have : queryColumnsMissing { t with rows := t.rows.map (applyCoins idColumn m) } idColumn
        contractColumn = none := hqc
    rw [this]
    simp only
    rw [resultSet_applyCoins t idColumn contractColumn m hc1 hc2 hc3]
  unfold migration009UpdateTablesCoins
  rw [hq1]
  simp only
  rw [hm]
  simp only [withTransaction]
  cases m with
  | nil => simp [updateStatements, execAll]
  | cons e m =>
    have hcols : updateColumnsMissing t idColumn = none := by
      have hf := backfill_fault decode db table idColumn contractColumn t ht
      rw [hrun] at hf
      unfold passFault at hf
      rw [hqc] at hf
      simp only [hm] at hf
      cases hx : updateColumnsMissing t idColumn with
      | none => rfl
      | some c => rw [hx] at hf; simp at hf
    rw [execAll_updates_ok table idColumn (e :: m) 0 db1 _ ht1
      (by rw [← hcols]; exact updateColumnsMissing_congr _ _ _ rfl)]
    simp only [Prod.mk.injEq, true_and]
    rw [hdb]
    congr 1
    funext n
    simp only [DB.setTable, List.map_map]
    split
    · congr 2
      apply List.map_congr_left
      intro r _
      exact applyCoins_idem idColumn (e :: m) r hc1 hc2 hnd
    · rfl

/-- C10, on the sales table of the test: the pass succeeds and a second pass leaves its
result as it is. -/
theorem backfill_idempotent_witness :
    (migration009UpdateTablesCoins testDecode salesDB10 "sales" "orderID"
        (.column "contract")).1 = none ∧
      migration009UpdateTablesCoins testDecode
          (migration009UpdateTablesCoins testDecode salesDB10 "sales" "orderID"
            (.column "contract")).2 "sales" "orderID" (.column "contract")
        = (none, (migration009UpdateTablesCoins testDecode salesDB10 "sales" "orderID"
            (.column "contract")).2) :=
  ⟨by decide,
   backfill_idempotent testDecode salesDB10 _ "sales" "orderID" (.column "contract")
     (by simp [backfillTargets]) (Prod.ext (by decide) rfl)⟩

/-- C6. When `Up` returns no error the ledger holds 10, and when `Down` returns no error
the ledger holds 9. -/
theorem ledger_after_success (env : Env) (w : World) :
    ((Up env w).1 = none → (Up env w).2.repover = 10) ∧
      ((Down env w).1 = none → (Down env w).2.repover = 9) := by
  constructor
  · intro h
    cases ho : env.openFault with
    | true => rw [Up_open env w ho] at h; simp at h
    | false =>
      cases hd : execAll env.ddlFault 0 w.db upStatements with
      | error e => rw [Up_ddl_fault env w e ho hd] at h; simp at h
      | ok db0 =>
        cases hl : env.ledgerFault with
        | true => rw [Up_ledger_fault env w db0 ho hd hl] at h; simp at h
        | false => exact (Up_after_ledger env w db0 ho hd hl).1
  · intro h
    cases ho : env.openFault with
    | true => rw [Down_open env w ho] at h; simp at h
    | false =>
      cases hd : execAll env.ddlFault 0 w.db downStatements with
      | error e => rw [Down_ddl_fault env w e ho hd] at h; simp at h
      | ok db0 =>
        cases hl : env.ledgerFault with
        | true => rw [Down_ledger_fault env w db0 ho hd hl] at h; simp at h
        | false => rw [Down_ok env w db0 ho hd hl]

/-- C6, at the run of the test (the database has no index on sales): `Up` succeeds and
leaves 10 in the ledger, `Down` then succeeds and leaves 9. -/
theorem ledger_after_success_witness :
    (Up testEnv ⟨testDB false, 9⟩).1 = none ∧ (Up testEnv ⟨testDB false, 9⟩).2.repover = 10 ∧
      (Down testEnv (Up testEnv ⟨testDB false, 9⟩).2).1 = none ∧
      (Down testEnv (Up testEnv ⟨testDB false, 9⟩).2).2.repover = 9 :=
  ⟨by decide, (ledger_after_success testEnv ⟨testDB false, 9⟩).1 (by decide), by decide,
   (ledger_after_success testEnv (Up testEnv ⟨testDB false, 9⟩).2).2 (by decide)⟩

/-- C5, as stated, fails: from the consistent version-9 state of the test, a run of `Up`
in which only the ledger write fails returns with the ledger at 9 and the derived columns
on the three tables. -/
theorem ledger_fault_breaks_coupling :
    lacksCoinColumns (testDB false) = true ∧
      (Up ledgerFaultEnv ⟨testDB false, 9⟩).1 = some .ledgerWrite ∧
      (Up ledgerFaultEnv ⟨testDB false, 9⟩).2.repover = 9 ∧
      hasCoinColumns (Up ledgerFaultEnv ⟨testDB false, 9⟩).2.db = true ∧
      ¬ Coupled (Up ledgerFaultEnv ⟨testDB false, 9⟩).2 := by
  decide

/-- C5, amended. From a consistent version-9 state, `Up` returns in a coupled state at
every outcome other than a failed ledger write (store not opened, schema statement failed,
backfill failed, success); from a consistent version-10 state, so does `Down`.  When the
ledger write fails, the schema transaction is committed already and the ledger still holds
the old version. -/
theorem coupling_unless_ledger_fault (env : Env) (w : World) :
    (w.repover = 9 → lacksCoinColumns w.db = true → (Up env w).1 ≠ some .ledgerWrite →
      Coupled (Up env w).2) ∧
    (w.repover = 10 → hasCoinColumns w.db = true → (Down env w).1 ≠ some .ledgerWrite →
      Coupled (Down env w).2) ∧
    (∀ db0, env.openFault = false → execAll env.ddlFault 0 w.db upStatements = .ok db0 →
      env.ledgerFault = true →
      Up env w = (some .ledgerWrite, { db := db0, repover := w.repover }) ∧
        hasCoinColumns db0 = true) ∧
    (∀ db0, env.openFault = false → execAll env.ddlFault 0 w.db downStatements = .ok db0 →
      env.ledgerFault = true →
      Down env w = (some .ledgerWrite, { db := db0, repover := w.repover }) ∧
        lacksCoinColumns db0 = true) := by
  refine ⟨?_, ?_, fun db0 ho hd hl =>
      ⟨Up_ledger_fault env w db0 ho hd hl, up_adds_columns env.ddlFault 0 w.db db0 hd⟩,
    fun db0 ho hd hl =>
      ⟨Down_ledger_fault env w db0 ho hd hl, down_drops_columns env.ddlFault 0 w.db db0 hd⟩⟩
  · intro hv hs hne
    have hstay : Coupled w := ⟨fun h => by omega, fun _ => hs⟩
    cases ho : env.openFault with
    | true => rw [Up_open env w ho]; exact hstay
    | false =>
      cases hd : execAll env.ddlFault 0 w.db upStatements with
      | error e => rw [Up_ddl_fault env w e ho hd]; exact hstay
      | ok db0 =>
        cases hl : env.ledgerFault with
        | true => rw [Up_ledger_fault env w db0 ho hd hl] at hne; simp at hne
        | false =>
          obtain ⟨h1, h2⟩ := Up_after_ledger env w db0 ho hd hl
          exact ⟨fun _ => h2, fun h => by omega⟩
  · intro hv hs hne
    have hstay : Coupled w := ⟨fun _ => hs, fun h => by omega⟩
    cases ho : env.openFault with
    | true => rw [Down_open env w ho]; exact hstay
    | false =>
      cases hd : execAll env.ddlFault 0 w.db downStatements with
      | error e => rw [Down_ddl_fault env w e ho hd]; exact hstay
      | ok db0 =>
        cases hl : env.ledgerFault with
        | true => rw [Down_ledger_fault env w db0 ho hd hl] at hne; simp at hne
        | false =>
          rw [Down_ok env w db0 ho hd hl]
          exact ⟨fun h => by simp at h, fun _ => down_drops_columns env.ddlFault 0 w.db db0 hd⟩

/-- C5, amended, at the run of the test and at its way back. -/
theorem coupling_unless_ledger_fault_witness :
    Coupled (Up testEnv ⟨testDB false, 9⟩).2 ∧
      Coupled (Down testEnv (Up testEnv ⟨testDB false, 9⟩).2).2 ∧
      (Up ledgerFaultEnv ⟨testDB false, 9⟩
          = (some .ledgerWrite, { db := committed (testDB false) upStatements, repover := 9 }) ∧
        hasCoinColumns (committed (testDB false) upStatements) = true) ∧
      (Down ledgerFaultEnv ⟨committed (testDB false) upStatements, 10⟩
          = (some .ledgerWrite,
              { db := committed (committed (testDB false) upStatements) downStatements,
                repover := 10 }) ∧
        lacksCoinColumns (committed (committed (testDB false) upStatements) downStatements)
          = true) :=
  ⟨(coupling_unless_ledger_fault testEnv ⟨testDB false, 9⟩).1 rfl (by decide) (by decide),
   (coupling_unless_ledger_fault testEnv (Up testEnv ⟨testDB false, 9⟩).2).2.1 (by decide)
     (by decide) (by decide),
   (coupling_unless_ledger_fault ledgerFaultEnv ⟨testDB false, 9⟩).2.2.1 _ rfl rfl rfl,
   (coupling_unless_ledger_fault ledgerFaultEnv
     ⟨committed (testDB false) upStatements, 10⟩).2.2.2 _ rfl rfl rfl⟩

/-- C4. On the version-9 database of the test with the index `index_sales` on sales, `Up`
succeeds and `Down` then fails on `create index index_sales`: the name is still held by
the index of the renamed table. The transaction is undone, so the three tables keep the
derived columns and the ledger stays at 10. -/
theorem down_fails_on_existing_index :
    (Up testEnv ⟨testDB true, 9⟩).1 = none ∧
      (Down testEnv (Up testEnv ⟨testDB true, 9⟩).2).1
        = some (.sql (.indexExists "index_sales")) ∧
      hasCoinColumns (Down testEnv (Up testEnv ⟨testDB true, 9⟩).2).2.db = true ∧
      (Down testEnv (Up testEnv ⟨testDB true, 9⟩).2).2.repover = 10 := by
  decide

/-- C9. When the schema transaction and the ledger write of `Up` succeed, the ledger holds
10 and the three tables keep the added columns whatever the backfill does; when the
backfill of one table fails, `Up` returns that fault, the state is the one left by the
tables backfilled before it (cases, then sales), and the failing table and the tables after
it are as the schema transaction left them. -/
theorem backfill_failure_advisory (env : Env) (w : World) (db0 : DB)
    (hopen : env.openFault = false)
    (hddl : execAll env.ddlFault 0 w.db upStatements = .ok db0)
    (hledger : env.ledgerFault = false) :
    (Up env w).2.repover = 10 ∧ hasCoinColumns (Up env w).2.db = true ∧
    (∀ e, (migration009UpdateTablesCoins env.decode db0 "cases" "caseID"
          (.coalesce "buyerContract" "vendorContract")).1 = some e →
      Up env w = (some e, { db := db0, repover := 10 })) ∧
    (∀ e db1, migration009UpdateTablesCoins env.decode db0 "cases" "caseID"
          (.coalesce "buyerContract" "vendorContract") = (none, db1) →
      (migration009UpdateTablesCoins env.decode db1 "sales" "orderID"
          (.column "contract")).1 = some e →
      Up env w = (some e, { db := db1, repover := 10 }) ∧
        db1.tables "sales" = db0.tables "sales" ∧
        db1.tables "purchases" = db0.tables "purchases") ∧
    (∀ e db1 db2, migration009UpdateTablesCoins env.decode db0 "cases" "caseID"
          (.coalesce "buyerContract" "vendorContract") = (none, db1) →
      migration009UpdateTablesCoins env.decode db1 "sales" "orderID"
          (.column "contract") = (none, db2) →
      (migration009UpdateTablesCoins env.decode db2 "purchases" "orderID"
          (.column "contract")).1 = some e →
      Up env w = (some e, { db := db2, repover := 10 }) ∧
        db2.tables "cases" = db1.tables "cases" ∧
        db2.tables "purchases" = db0.tables "purchases") := by
  obtain ⟨hv, hc⟩ := Up_after_ledger env w db0 hopen hddl hledger
  refine ⟨hv, hc, ?_, ?_, ?_⟩
  · intro e h1
    have hsame := backfill_fault_unchanged env.decode db0 "cases" "caseID"
      (.coalesce "buyerContract" "vendorContract") (by rw [h1]; simp)
    rw [Up_backfill env w db0 hopen hddl hledger]
    rw [show migration009UpdateTablesCoins env.decode db0 "cases" "caseID"
      (.coalesce "buyerContract" "vendorContract") = (some e, db0) from Prod.ext h1 hsame]
  · intro e db1 h1 h2
    have hsame := backfill_fault_unchanged env.decode db1 "sales" "orderID"
      (.column "contract") (by rw [h2]; simp)
    have hf1 := backfill_frame env.decode db0 "cases" "caseID"
      (.coalesce "buyerContract" "vendorContract")
    rw [h1] at hf1
    refine ⟨?_, hf1 "sales" (by decide), hf1 "purchases" (by decide)⟩
    rw [Up_backfill env w db0 hopen hddl hledger, h1]
    simp only
    rw [show migration009UpdateTablesCoins env.decode db1 "sales" "orderID"
      (.column "contract") = (some e, db1) from Prod.ext h2 hsame]
  · intro e db1 db2 h1 h2 h3
    have hsame := backfill_fault_unchanged env.decode db2 "purchases" "orderID"
      (.column "contract") (by rw [h3]; simp)
    have hf1 := backfill_frame env.decode db0 "cases" "caseID"
      (.coalesce "buyerContract" "vendorContract")
    rw [h1] at hf1
    have hf2 := backfill_frame env.decode db1 "sales" "orderID" (.column "contract")
    rw [h2] at hf2
    refine ⟨?_, hf2 "cases" (by decide), ?_⟩
    · rw [Up_backfill env w db0 hopen hddl hledger, h1]
      simp only
      rw [h2]
      simp only
      rw [show migration009UpdateTablesCoins env.decode db2 "purchases" "orderID"
        (.column "contract") = (some e, db2) from Prod.ext h3 hsame]
    · rw [hf2 "purchases" (by decide), hf1 "purchases" (by decide)]

/-- C9, on the database of the test with a malformed sales document: the backfill of cases
succeeds, the backfill of sales fails on the document of row 1, and `Up` returns that
error with the ledger at 10 and the columns in place. -/
theorem backfill_failure_advisory_witness :
    (Up testEnv ⟨testDBMalformedSales, 9⟩).2.repover = 10 ∧
      hasCoinColumns (Up testEnv ⟨testDBMalformedSales, 9⟩).2.db = true ∧
      (Up testEnv ⟨testDBMalformedSales, 9⟩).1 = some (.decode "1") := by
  have h := backfill_failure_advisory testEnv ⟨testDBMalformedSales, 9⟩
    (committed testDBMalformedSales upStatements) rfl rfl rfl
  refine ⟨h.1, h.2.1, ?_⟩
  have h4 := (h.2.2.2.1 (.decode "1")
    (migration009UpdateTablesCoins testDecode (committed testDBMalformedSales upStatements)
      "cases" "caseID" (.coalesce "buyerContract" "vendorContract")).2
    (Prod.ext (by decide) rfl) (by decide)).1
  rw [h4]

end Migration009
